import Mathlib

/-!
Verification development for the HAMLET local energy market (LEM) engine.

The definitions below are a shallow embedding of two source files:

* `src/hamlet/executor/markets/lem/lem.py` — the per-step clearing pipeline
  (class `Lem`: `__create_bids_offers`, `__split_bids_offers`,
  `__clear_bids_offers`, `__create_market_tables`, `__update_database`,
  `__action_clear`, `__pricing_uniform`, `__pricing_discriminatory`);
* `src/hamlet/creator/markets/lem.py` — the timetable builder and retailer
  creator (class `Lem`: `_create_timetable`, `_create_timetable_ex_ante`,
  `create_retailers_from_config`, `_create_retailer`, `_add_columns`,
  `_create_fixed_cols`, `_create_file_cols`).

Modelling conventions:
* polars / pandas columnar tables are lists of records; the categorical
  dimension columns (`region`, `market`, `name`, `timestamp`, `timestep`,
  `energy_type`) that are constant across one clearing step and are only
  carried through unchanged are not repeated in every record;
* machine integers are `Int` (polars Int32 / Int64 money columns) and `Nat`
  (polars UInt64 energy columns); no value in scope overflows those widths;
* timestamps are integer seconds (the source holds nanosecond instants and
  does arithmetic in whole seconds);
* a python `raise` (and the `None`-propagation failure of the
  `discriminatory` pricing stub) is `Except.error` / `Option.none`;
* the unseeded `DataFrame.sample(fraction=1, shuffle=True)` calls are
  modelled by passing the shuffled bid and offer lists as parameters,
  constrained to be permutations of the split order books.
-/

namespace Hamlet

/-- Rounding applied by polars when the integer midpoint column
`((price_pu_out + price_pu_in) / 2).round()` is computed: the sum `s` of the
two integer prices is divided by two in floating point and rounded to the
nearest integer, ties away from zero. -/
def roundHalfDiv2 (s : Int) : Int :=
  if 0 ≤ s then (s + 1) / 2 else -((1 - s) / 2)

/-! ### Stable sort

The source shuffles each order book and then sorts it by price
(`bids.sort(price_pu_in, descending=True)`, `offers.sort(price_pu_out)`).
`sortLe` is a stable insertion sort on a boolean `le`; an element is placed
before the first existing element it compares `le` to, so earlier elements
stay before later elements with an equal key. -/

def insertLe (le : α → α → Bool) (a : α) : List α → List α
  | [] => [a]
  | b :: l => if le a b then a :: b :: l else b :: insertLe le a l

def sortLe (le : α → α → Bool) : List α → List α
  | [] => []
  | a :: l => insertLe le a (sortLe le l)

/-! ### Data model (executor)

`BookRow` is one row of the combined bids/offers table fetched by
`Database.get_bids_offers` (quote schema of the spec): per-unit prices for
both sides and the unsigned energy quantities, of which at most one side is
expected to be positive per physical quote. -/

structure BookRow where
  id_agent : String
  energy_in : Nat
  energy_out : Nat
  price_pu_in : Int
  price_pu_out : Int
deriving DecidableEq

/-- One row of the retailer table after the `filter(timestamp == timestep)`
in `Lem.__init__`.  Only the columns consumed by `__create_bids_offers` are
modelled (the balancing, grid and levies columns feed the settle action,
which is outside the claims considered here). -/
structure RetailerQuote where
  timestamp : Int
  retailer : String
  energy_price_sell : Int
  energy_price_buy : Int
  energy_quantity_sell : Nat
  energy_quantity_buy : Nat
deriving DecidableEq

/-- Projection, renaming and casting of one retailer row into the quote
schema performed by `__create_bids_offers`:
`retailer → id_agent`, `energy_price_sell → price_pu_in`,
`energy_price_buy → price_pu_out`, `energy_quantity_sell → energy_in`,
`energy_quantity_buy → energy_out`. -/
def retailer_to_book (r : RetailerQuote) : BookRow :=
  { id_agent := r.retailer
    energy_in := r.energy_quantity_sell
    energy_out := r.energy_quantity_buy
    price_pu_in := r.energy_price_sell
    price_pu_out := r.energy_price_buy }

/-- `__create_bids_offers`: the agent book and the converted retailer rows
are concatenated (`pl.concat(..., how=align)` followed by a forward fill of
the nulls; every modelled column is non-null, so the result is the union of
the rows). -/
def create_bids_offers (book : List BookRow) (retailer : List RetailerQuote) :
    List BookRow :=
  book ++ retailer.map retailer_to_book

/-- One bid row after `__split_bids_offers` dropped `energy_out` and
`price_pu_out` and renamed `id_agent` to `id_agent_in`. -/
structure BidRow where
  id_agent_in : String
  energy_in : Nat
  price_pu_in : Int
deriving DecidableEq

/-- One offer row after `__split_bids_offers` dropped `energy_in` and
`price_pu_in` and renamed `id_agent` to `id_agent_out`. -/
structure OfferRow where
  id_agent_out : String
  energy_out : Nat
  price_pu_out : Int
deriving DecidableEq

/-- First half of `__split_bids_offers`: filter `energy_in > 0` resp.
`energy_out > 0`, drop the opposite columns, rename the agent column.  The
shuffle that follows in the source is a parameter of the clearing run. -/
def split_bids_offers (book : List BookRow) : List BidRow × List OfferRow :=
  ((book.filter (fun r => decide (0 < r.energy_in))).map fun r =>
      { id_agent_in := r.id_agent, energy_in := r.energy_in
        price_pu_in := r.price_pu_in },
   (book.filter (fun r => decide (0 < r.energy_out))).map fun r =>
      { id_agent_out := r.id_agent, energy_out := r.energy_out
        price_pu_out := r.price_pu_out })

/-- `bids.sort(price_pu_in, descending=True)` on the shuffled bids. -/
def sort_bids (bids : List BidRow) : List BidRow :=
  sortLe (fun a b => decide (b.price_pu_in ≤ a.price_pu_in)) bids

/-- `offers.sort(price_pu_out, descending=False)` on the shuffled offers. -/
def sort_offers (offers : List OfferRow) : List OfferRow :=
  sortLe (fun a b => decide (a.price_pu_out ≤ b.price_pu_out)) offers

/-- The `energy_cumsum` column appended by `__split_bids_offers`: running
prefix sum of the energy column, paired with each row. -/
def withCumsum (f : α → Nat) : Nat → List α → List (α × Nat)
  | _, [] => []
  | acc, a :: rest => (a, acc + f a) :: withCumsum f (acc + f a) rest

/-- Sorted bids annotated with their cumulative energy. -/
def prepare_bids (bids : List BidRow) : List (BidRow × Nat) :=
  withCumsum (fun b => b.energy_in) 0 (sort_bids bids)

/-- Sorted offers annotated with their cumulative energy. -/
def prepare_offers (offers : List OfferRow) : List (OfferRow × Nat) :=
  withCumsum (fun o => o.energy_out) 0 (sort_offers offers)

/-- One row of the outer join of bids and offers on `energy_cumsum`
(`bids.join(offers, on=energy_cumsum, how=outer)`).  The polars outer join
of this era coalesces the key column; the bid-side and offer-side columns of
an unmatched row are null together, which the `Option` on each whole side
captures (each original column of a real quote row is non-null). -/
structure JoinRow where
  energy_cumsum : Nat
  bid : Option BidRow
  offer : Option OfferRow
deriving DecidableEq

/-- Keys of the outer join: the union of the two cumulative-energy columns,
sorted ascending (the source sorts the joined table by `energy_cumsum`) and
deduplicated (a key present on both sides yields a single matched row). -/
def joinKeys (bids : List (BidRow × Nat)) (offers : List (OfferRow × Nat)) :
    List Nat :=
  (sortLe (fun a b => decide (a ≤ b)) (bids.map Prod.snd ++ offers.map Prod.snd)).dedup

/-- The outer join itself: for every key the matching bid row and offer row,
if any (cumulative sums are strictly increasing within one side because all
energies are positive, so `find?` is exhaustive). -/
def joinOnCumsum (bids : List (BidRow × Nat)) (offers : List (OfferRow × Nat)) :
    List JoinRow :=
  (joinKeys bids offers).map fun k =>
    { energy_cumsum := k
      bid := (bids.find? (fun p => decide (p.2 = k))).map Prod.fst
      offer := (offers.find? (fun p => decide (p.2 = k))).map Prod.fst }

/-- `fill_null(strategy=backward)` on the joined table: a null side of a row
is filled from the next row below whose side is present; trailing nulls
remain null. -/
def backfillRows : List JoinRow → List JoinRow
  | [] => []
  | x :: xs =>
    let r := backfillRows xs
    { energy_cumsum := x.energy_cumsum
      bid := match x.bid with
        | some b => some b
        | none => r.head?.bind fun y => y.bid
      offer := match x.offer with
        | some o => some o
        | none => r.head?.bind fun y => y.offer } :: r

/-- One row of `trades_cleared` / `trades_uncleared` before pricing: both
sides of the joined row at one cumulative-energy threshold. -/
structure Trade where
  id_agent_in : String
  energy_in : Nat
  price_pu_in : Int
  id_agent_out : String
  energy_out : Nat
  price_pu_out : Int
  energy_cumsum : Nat
deriving DecidableEq

/-- `bids_offers.filter(price_pu_in >= price_pu_out)`: rows where either
price is null (trailing unmatched rows) do not satisfy the comparison and
are dropped. -/
def clearedTrades (rows : List JoinRow) : List Trade :=
  rows.filterMap fun row =>
    match row.bid, row.offer with
    | some b, some o =>
      if o.price_pu_out ≤ b.price_pu_in then
        some { id_agent_in := b.id_agent_in, energy_in := b.energy_in
               price_pu_in := b.price_pu_in, id_agent_out := o.id_agent_out
               energy_out := o.energy_out, price_pu_out := o.price_pu_out
               energy_cumsum := row.energy_cumsum }
      else none
    | _, _ => none

/-- `bids_offers.filter(price_pu_in < price_pu_out)`; null comparisons are
dropped as above.  The resulting table is returned by `__clear_bids_offers`
but never read by `__create_market_tables`, exactly as in the source. -/
def unclearedTrades (rows : List JoinRow) : List Trade :=
  rows.filterMap fun row =>
    match row.bid, row.offer with
    | some b, some o =>
      if b.price_pu_in < o.price_pu_out then
        some { id_agent_in := b.id_agent_in, energy_in := b.energy_in
               price_pu_in := b.price_pu_in, id_agent_out := o.id_agent_out
               energy_out := o.energy_out, price_pu_out := o.price_pu_out
               energy_cumsum := row.energy_cumsum }
      else none
    | _, _ => none

/-- A cleared trade with its `price_pu` column. -/
structure PricedTrade extends Trade where
  price_pu : Int
deriving DecidableEq

/-- A priced trade with the `energy` and `price` columns of
`__clear_bids_offers` (`energy = min(energy_in, energy_out)`,
`price = price_pu * energy`). -/
structure ClearedTrade extends PricedTrade where
  energy : Nat
  price : Int
deriving DecidableEq

/-- `__pricing_uniform`.  The source computes
`((price_pu_out.tail() + price_pu_in.tail()) / 2).round().cast(Int32)`.
`Expr.tail` defaults to the last TEN rows, not the last row: on a cleared
table of height at most 10 the tail is the whole column and the new column
is the per-row midpoint; on a taller table the 10-element series cannot be
broadcast to the frame height and collecting raises a ShapeError, modelled
as `none`. -/
def pricing_uniform (trades : List Trade) : Option (List PricedTrade) :=
  if trades.length ≤ 10 then
    some (trades.map fun t =>
      { toTrade := t, price_pu := roundHalfDiv2 (t.price_pu_out + t.price_pu_in) })
  else none

/-- `__pricing_discriminatory` is a stub whose body is `...`: it returns
python `None`, and `__clear_bids_offers` then fails when it calls
`with_columns` on it.  Modelled as `none`. -/
def pricing_discriminatory (_trades : List Trade) : Option (List PricedTrade) :=
  none

/-- The pricing methods registered in `Lem.__init__` (`self.pricing`). -/
inductive PricingMethod
  | uniform
  | discriminatory
deriving DecidableEq

/-- Dispatch `self.pricing[pricing_method](trades_cleared)`. -/
def applyPricing : PricingMethod → List Trade → Option (List PricedTrade)
  | .uniform => pricing_uniform
  | .discriminatory => pricing_discriminatory

/-- The `energy` and `price` columns appended after pricing in
`__clear_bids_offers`. -/
def withEnergyPrice (trades : List PricedTrade) : List ClearedTrade :=
  trades.map fun t =>
    { toPricedTrade := t
      energy := min t.energy_in t.energy_out
      price := t.price_pu * Int.ofNat (min t.energy_in t.energy_out) }

/-- `__clear_bids_offers` on the prepared (shuffled, sorted, cumsum) books:
outer join on `energy_cumsum`, sort by the key, backward fill, split into
cleared and uncleared rows, price the cleared rows and append the `energy`
and `price` columns.  `none` models the run raising. -/
def clear_bids_offers (bidsC : List (BidRow × Nat)) (offersC : List (OfferRow × Nat))
    (pricing : PricingMethod) : Option (List ClearedTrade × List Trade) :=
  let rows := backfillRows (joinOnCumsum bidsC offersC)
  (applyPricing pricing (clearedTrades rows)).map fun priced =>
    (withEnergyPrice priced, unclearedTrades rows)

/-- One row of the final cleared-bids table (`bids_cleared`): the original
`energy_in`, `price_pu_in` and `energy_cumsum` columns are dropped and the
attached trade columns are renamed `energy → energy_in`,
`price_pu → price_pu_in`, `price → price_in`. -/
structure ClearedBid where
  id_agent_in : String
  energy_in : Nat
  price_pu_in : Int
  price_in : Int
deriving DecidableEq

/-- One row of the final cleared-offers table (`offers_cleared`). -/
structure ClearedOffer where
  id_agent_out : String
  energy_out : Nat
  price_pu_out : Int
  price_out : Int
deriving DecidableEq

/-- One row of the final uncleared-bids table: the residual energy after the
cleared sum of the agent is subtracted (computed as a difference, so typed
`Int`; only rows with a positive residual are kept). -/
structure UnclearedBid where
  id_agent_in : String
  energy_in : Int
  price_pu_in : Int
deriving DecidableEq

/-- One row of the final uncleared-offers table. -/
structure UnclearedOffer where
  id_agent_out : String
  energy_out : Int
  price_pu_out : Int
deriving DecidableEq

/-- `type_transaction` values (`hamlet.constants`). -/
inductive TType
  | market
  | retail
  | balancing
  | grid
  | levies
deriving DecidableEq

/-- One row of the transactions table built by `__create_market_tables`: the
diagonal concatenation leaves the columns of the absent side null. -/
structure Transaction where
  id_agent : String
  energy_in : Option Nat
  price_pu_in : Option Int
  price_in : Option Int
  energy_out : Option Nat
  price_pu_out : Option Int
  price_out : Option Int
  type_transaction : TType
  quality : Nat
deriving DecidableEq

/-- The five result tables of one step. -/
structure FiveTables where
  bids_cleared : List ClearedBid
  offers_cleared : List ClearedOffer
  bids_uncleared : List UnclearedBid
  offers_uncleared : List UnclearedOffer
  transactions : List Transaction
deriving DecidableEq

/-- `__create_market_tables`.  `bidsC` and `offersC` are the sorted books
with their cumsum column (the `bids` / `offers` frames of the source),
`trades` is `trades_cleared` after pricing, `tradesUncleared` is passed but
unused exactly as in the source, and `retailerNames` is the `id_agent`
column of the converted retailer table. -/
def create_market_tables (bidsC : List (BidRow × Nat)) (offersC : List (OfferRow × Nat))
    (trades : List ClearedTrade) (_tradesUncleared : List Trade)
    (retailerNames : List String) : FiveTables :=
  -- semi-join of the bids with the cleared trades on id_agent_in
  let bidsSemi := bidsC.filter fun b =>
    trades.any fun t => decide (t.id_agent_in = b.1.id_agent_in)
  -- inner join with the (id_agent_in, energy, price_pu, price) projection,
  -- then drop (energy_in, price_pu_in, energy_cumsum) and rename
  let bids_cleared : List ClearedBid := bidsSemi.flatMap fun b =>
    (trades.filter fun t => decide (t.id_agent_in = b.1.id_agent_in)).map fun t =>
      { id_agent_in := b.1.id_agent_in, energy_in := t.energy
        price_pu_in := t.price_pu, price_in := t.price }
  let offersSemi := offersC.filter fun o =>
    trades.any fun t => decide (t.id_agent_out = o.1.id_agent_out)
  let offers_cleared : List ClearedOffer := offersSemi.flatMap fun o =>
    (trades.filter fun t => decide (t.id_agent_out = o.1.id_agent_out)).map fun t =>
      { id_agent_out := o.1.id_agent_out, energy_out := t.energy
        price_pu_out := t.price_pu, price_out := t.price }
  -- groupby(id_agent_in).sum() of the cleared energy, outer-joined back onto
  -- the bids with nulls filled by 0 (rows of the cleared side without a bid
  -- cannot occur: every cleared agent id is backfilled from a bid row)
  let clearedEnergyOfBid := fun (a : String) =>
    ((bids_cleared.filter fun r => decide (r.id_agent_in = a)).map
      fun r => r.energy_in).sum
  let bids_uncleared : List UnclearedBid :=
    ((bidsC.map fun b =>
        ({ id_agent_in := b.1.id_agent_in
           energy_in := (b.1.energy_in : Int) - (clearedEnergyOfBid b.1.id_agent_in : Int)
           price_pu_in := b.1.price_pu_in } : UnclearedBid)).filter
      (fun r => decide (0 < r.energy_in))).filter
      fun r => decide (r.id_agent_in ∉ retailerNames)
  let clearedEnergyOfOffer := fun (a : String) =>
    ((offers_cleared.filter fun r => decide (r.id_agent_out = a)).map
      fun r => r.energy_out).sum
  let offers_uncleared : List UnclearedOffer :=
    ((offersC.map fun o =>
        ({ id_agent_out := o.1.id_agent_out
           energy_out := (o.1.energy_out : Int) - (clearedEnergyOfOffer o.1.id_agent_out : Int)
           price_pu_out := o.1.price_pu_out } : UnclearedOffer)).filter
      (fun r => decide (0 < r.energy_out))).filter
      fun r => decide (r.id_agent_out ∉ retailerNames)
  -- diagonal concatenation of the cleared tables with id_agent coalesced,
  -- type_transaction = market and quality = 0
  let transactions : List Transaction :=
    bids_cleared.map (fun r =>
      { id_agent := r.id_agent_in, energy_in := some r.energy_in
        price_pu_in := some r.price_pu_in, price_in := some r.price_in
        energy_out := none, price_pu_out := none, price_out := none
        type_transaction := TType.market, quality := 0 })
    ++ offers_cleared.map (fun r =>
      { id_agent := r.id_agent_out, energy_in := none, price_pu_in := none
        price_in := none, energy_out := some r.energy_out
        price_pu_out := some r.price_pu_out, price_out := some r.price_out
        type_transaction := TType.market, quality := 0 })
  { bids_cleared := bids_cleared, offers_cleared := offers_cleared
    bids_uncleared := bids_uncleared, offers_uncleared := offers_uncleared
    transactions := transactions }

/-- The clearing pipeline from the shuffled order books to the five result
tables: `__split_bids_offers` (sort and cumsum part), `__clear_bids_offers`,
`__create_market_tables`.  `none` models a raised exception. -/
def runClearingTables (sb : List BidRow) (so : List OfferRow)
    (pricing : PricingMethod) (retailerNames : List String) :
    Option FiveTables :=
  (clear_bids_offers (prepare_bids sb) (prepare_offers so) pricing).map fun res =>
    create_market_tables (prepare_bids sb) (prepare_offers so) res.1 res.2 retailerNames

/-- The market database slice owned by one market instance: the five result
tables plus the retailer table (`MarketDB`). -/
structure MarketDB where
  bids_cleared : List ClearedBid
  offers_cleared : List ClearedOffer
  bids_uncleared : List UnclearedBid
  offers_uncleared : List UnclearedOffer
  transactions : List Transaction
  retailer : List RetailerQuote
deriving DecidableEq

/-- `__update_database` after `Lem.__init__`: the local working tables were
initialised with `market.<table>.clear()` — empty copies of the database
tables — the step results are concatenated onto those empty copies
(`pl.concat(..., how=align)`) and the database fields are overwritten with
the result. -/
def update_database (market : MarketDB) (t : FiveTables) : MarketDB :=
  { market with
    bids_cleared := ([] : List ClearedBid) ++ t.bids_cleared
    offers_cleared := ([] : List ClearedOffer) ++ t.offers_cleared
    bids_uncleared := ([] : List UnclearedBid) ++ t.bids_uncleared
    offers_uncleared := ([] : List UnclearedOffer) ++ t.offers_uncleared
    transactions := ([] : List Transaction) ++ t.transactions }

/-- `__action_clear` of one timetable row.  `book` is the lazy bids/offers
table fetched for the task tuple, `sb` and `so` are the outcomes of the two
unseeded shuffles in `__split_bids_offers` (permutations of the split books;
the constraint is stated where it matters).  An empty agent book returns
early without touching the database, exactly as in the source; `none` models
a raised exception (no partial commit: the five-table write is last). -/
def action_clear (market : MarketDB) (timestep : Int) (book : List BookRow)
    (pricing : PricingMethod) (sb : List BidRow) (so : List OfferRow) :
    Option MarketDB :=
  if book.isEmpty then some market
  else
    (runClearingTables sb so pricing
      (((market.retailer.filter fun r => decide (r.timestamp = timestep)).map
          retailer_to_book).map fun r => r.id_agent)).map fun t =>
      update_database market t

/-- The five result tables held by a market database, as read back after a
step. -/
def marketTables (m : MarketDB) : FiveTables :=
  { bids_cleared := m.bids_cleared, offers_cleared := m.offers_cleared
    bids_uncleared := m.bids_uncleared, offers_uncleared := m.offers_uncleared
    transactions := m.transactions }

/-! ### Timetable builder (creator)

Shallow embedding of `hamlet/creator/markets/lem.py`.  Timestamps are
integer seconds.  A python `raise ValueError` is `Except.error`.  `exMapM`
and `exFoldlM` are the plain left-to-right traversals of the python loops,
stopping at the first raise. -/

def exMapM (f : α → Except ε β) : List α → Except ε (List β)
  | [] => .ok []
  | a :: l =>
    match f a with
    | .error e => .error e
    | .ok b =>
      match exMapM f l with
      | .error e => .error e
      | .ok bs => .ok (b :: bs)

def exFoldlM (f : σ → α → Except ε σ) (s : σ) : List α → Except ε σ
  | [] => .ok s
  | a :: l =>
    match f s a with
    | .error e => .error e
    | .ok s2 => exFoldlM f s2 l

/-- Whether an Except value is a success. -/
def exIsOk : Except ε α → Bool
  | .ok _ => true
  | .error _ => false

/-- `pd.date_range(start=start, end=stop, freq=step, inclusive=left)`: the
instants `start + k * step` that are smaller than `stop`, and likewise the
`while` loops of the builder that step a time variable below a bound.  A
non-positive step is outside the modelled configurations (pandas rejects it
and the while loops would not terminate). -/
def intRange (start stop step : Int) : List Int :=
  if 0 < step then
    (List.range ((stop - start + step - 1) / step).toNat).map
      fun i => start + step * Int.ofNat i
  else []

/-- One row of the timetable.  The constant dimension and clearing columns
(`region`, `market`, `name`, `type`, `method`, `pricing`, `coupling`) that
`_create_timetable_ex_ante` appends identically to every row after the loop
are not repeated per row. -/
structure TTRow where
  timestamp : Int
  timestep : Int
  action : String
deriving DecidableEq

/-- The `clearing.timing` configuration of a market.  `start` is the offset
in seconds of the first opening from the simulation start (the source also
accepts an absolute timestamp; both yield one absolute first opening). -/
structure TimingCfg where
  start : Int
  opening : Int
  frequency : Int
  duration : Int
  horizon0 : Int
  horizon1 : Int
  closing : Int
  settling : String
deriving DecidableEq

/-- The rows of one frequency block before the settling adjustment: delivery
steps from `max(time_opening + horizon[0], time_frequency)` (inclusive) to
`time_opening + horizon[1]` (exclusive) in steps of `duration`, each with
`timestamp = time_frequency` and `action = clear`. -/
def blockInitial (timing : TimingCfg) (timeOpening timeFrequency : Int) :
    List TTRow :=
  (intRange (max (timeOpening + timing.horizon0) timeFrequency)
      (timeOpening + timing.horizon1) timing.duration).map
    fun t => { timestamp := timeFrequency, timestep := t, action := "clear" }

/-- First settling stage: `action += ',settle'` for rows with
`timestep <= time_frequency` (continuous) or for every row once any row has
`timestep <= time_frequency + closing` (periodic).  The source has no else
branch here; an unknown settling leaves the block unchanged. -/
def blockAppendSettle (timing : TimingCfg) (timeFrequency : Int)
    (rows : List TTRow) : List TTRow :=
  if timing.settling = "continuous" then
    rows.map fun r =>
      if r.timestep ≤ timeFrequency then { r with action := r.action ++ ",settle" }
      else r
  else if timing.settling = "periodic" then
    if rows.any (fun r => decide (r.timestep ≤ timeFrequency + timing.closing)) then
      rows.map fun r => { r with action := r.action ++ ",settle" }
    else rows
  else rows

/-- Second settling stage: `action = 'settle'` for rows with
`timestep - timestamp < closing` (continuous) or for every row once any row
satisfies it (periodic); any other settling value raises here
(`ValueError: Closing type ... not available`). -/
def blockReplaceSettle (timing : TimingCfg) (rows : List TTRow) :
    Except String (List TTRow) :=
  if timing.settling = "continuous" then
    .ok (rows.map fun r =>
      if r.timestep - r.timestamp < timing.closing then { r with action := "settle" }
      else r)
  else if timing.settling = "periodic" then
    .ok (if rows.any (fun r => decide (r.timestep - r.timestamp < timing.closing)) then
      rows.map fun r => { r with action := "settle" }
    else rows)
  else .error "Closing type not available"

/-- One frequency block with both settling stages applied. -/
def buildBlock (timing : TimingCfg) (timeOpening timeFrequency : Int) :
    Except String (List TTRow) :=
  blockReplaceSettle timing (blockAppendSettle timing timeFrequency
    (blockInitial timing timeOpening timeFrequency))

/-- The bound of the frequency loop inside one opening: the next opening
when `frequency == opening`, the end of the horizon when
`frequency < opening`, and a raise otherwise. -/
def endOpening (timing : TimingCfg) (timeOpening : Int) : Except String Int :=
  if timing.frequency = timing.opening then .ok (timeOpening + timing.opening)
  else if timing.frequency < timing.opening then .ok (timeOpening + timing.horizon1)
  else .error "Frequency must be smaller than opening"

/-- All blocks of one opening, concatenated. -/
def buildOpening (timing : TimingCfg) (timeOpening : Int) :
    Except String (List TTRow) :=
  match endOpening timing timeOpening with
  | .error e => .error e
  | .ok e =>
    match exMapM (fun tF => buildBlock timing timeOpening tF)
        (intRange timeOpening e timing.frequency) with
    | .error e2 => .error e2
    | .ok blocks => .ok blocks.flatten

/-- The `(timestamp, timestep)` sort at the end of
`_create_timetable_ex_ante` (`sort_values(by=[timestamp, timestep])`). -/
def sortTimetable (rows : List TTRow) : List TTRow :=
  sortLe (fun a b => decide (a.timestamp < b.timestamp ∨
    (a.timestamp = b.timestamp ∧ a.timestep ≤ b.timestep))) rows

/-- `_create_timetable_ex_ante`: one opening every `opening` seconds from
`simStart + timing.start` while before `simEnd`, then the final sort.  The
constant annotation columns are not modelled per row. -/
def create_timetable_ex_ante (simStart simEnd : Int) (timing : TimingCfg) :
    Except String (List TTRow) :=
  match exMapM (buildOpening timing)
      (intRange (simStart + timing.start) simEnd timing.opening) with
  | .error e => .error e
  | .ok tts => .ok (sortTimetable tts.flatten)

/-- `_create_timetable`: dispatch on `clearing.type`; only `ex-ante` is
registered in `self.clearing_types` (`ex-post` is commented out), any other
type raises `ValueError: Clearing type ... not available`. -/
def create_timetable (ctype : String) (simStart simEnd : Int)
    (timing : TimingCfg) : Except String (List TTRow) :=
  if ctype = "ex-ante" then create_timetable_ex_ante simStart simEnd timing
  else .error "Clearing type not available"

/-! ### Retailer creator -/

/-- A value of one key of a `fixed` pricing component: the source
distinguishes list values (sell and buy) from scalar values. -/
inductive FixedVal
  | single (v : Int)
  | pair (sell buy : Int)
deriving DecidableEq

/-- Configuration of one cost component of a retailer
(`pricing.<retailer>.<component>`): the `method` string, the `fixed`
mapping, and the columns a `file` method would join from the price file
(the file contents are external input). -/
structure ComponentCfg where
  method : String
  fixed : List (String × FixedVal)
  file : List (String × Int)
deriving DecidableEq

/-- The retailer price table built by `_create_retailer`: the deduplicated
timestamps of the timetable, the retailer name, and the price columns added
per component (`region`, `market` and `name` are the constant dimensions). -/
structure RetailerTable where
  timestamps : List Int
  retailer : String
  cols : List (String × Int)
deriving DecidableEq

/-- `_create_fixed_cols`: for a list value `[sell, buy]` two columns
`<prefix>_<key>_sell` and `<prefix>_<key>_buy`, for a scalar one column
`<prefix>_<key>`. -/
def create_fixed_cols (pre : String) (cfg : List (String × FixedVal)) :
    List (String × Int) :=
  cfg.flatMap fun kv =>
    match kv.2 with
    | .pair s b => [(pre ++ "_" ++ kv.1 ++ "_sell", s), (pre ++ "_" ++ kv.1 ++ "_buy", b)]
    | .single v => [(pre ++ "_" ++ kv.1, v)]

/-- `_add_columns`: dispatch on the component method; `fixed` and `file`
extend the table, anything else raises
`ValueError: Pricing method ... not available`. -/
def add_columns (tbl : RetailerTable) (component : String) (cfg : ComponentCfg) :
    Except String RetailerTable :=
  if cfg.method = "fixed" then
    .ok { tbl with cols := tbl.cols ++ create_fixed_cols component cfg.fixed }
  else if cfg.method = "file" then
    .ok { tbl with cols := tbl.cols ++ cfg.file }
  else .error "Pricing method not available"

/-- `_create_retailer`: the deduplicated timestamp column of the timetable
plus the columns of every configured component, added in order. -/
def create_retailer (name : String) (cfg : List (String × ComponentCfg))
    (tt : List TTRow) : Except String RetailerTable :=
  exFoldlM (fun tbl kv => add_columns tbl kv.1 kv.2)
    { timestamps := (tt.map fun r => r.timestamp).dedup
      retailer := name, cols := [] } cfg

/-- `create_retailers_from_config`: a table is built for every retailer of
`market[pricing]` and stored in a dict, but the function returns only
`dict_retailers[retailer]` where `retailer` is the loop variable, i.e. the
key iterated last; with an empty pricing dict the loop variable is unbound
and the lookup raises, modelled as an error. -/
def create_retailers_from_config (tt : List TTRow)
    (pricing : List (String × List (String × ComponentCfg))) :
    Except String RetailerTable :=
  match exMapM (fun kv => create_retailer kv.1 kv.2 tt) pricing with
  | .error e => .error e
  | .ok tables =>
    match tables.getLast? with
    | some t => .ok t
    | none => .error "no retailer configured"

/-- A market configuration as consumed at build time: the clearing type, the
timing block and the pricing (retailer) block. -/
structure MarketConfig where
  ctype : String
  timing : TimingCfg
  pricing : List (String × List (String × ComponentCfg))

/-- Building a market from its configuration: the two build-time entry
points of the creator, `create_market_from_config` (the timetable) followed
by `create_retailers_from_config` (the retailer price tables). -/
def buildMarket (simStart simEnd : Int) (cfg : MarketConfig) :
    Except String (List TTRow × RetailerTable) :=
  match create_timetable cfg.ctype simStart simEnd cfg.timing with
  | .error e => .error e
  | .ok tt =>
    match create_retailers_from_config tt cfg.pricing with
    | .error e => .error e
    | .ok rt => .ok (tt, rt)

/-! ### Concrete inputs used by the individual claims -/

/-- Two cleared rows as they come out of the cumulative merge: thresholds
with (bid, offer) per-unit prices (10, 2) and (6, 4).  Produced, for
instance, by bids 5 Wh at 10 and 3 Wh at 6 against offers 5 Wh at 2 and
3 Wh at 4. -/
def c1bids : List BidRow :=
  [ { id_agent_in := "a1", energy_in := 5, price_pu_in := 10 },
    { id_agent_in := "a2", energy_in := 3, price_pu_in := 6 } ]

def c1offers : List OfferRow :=
  [ { id_agent_out := "s1", energy_out := 5, price_pu_out := 2 },
    { id_agent_out := "s2", energy_out := 3, price_pu_out := 4 } ]

/-- Two bids with the same price 10 (3 Wh and 5 Wh) and one offer of 3 Wh at
price 2: the shuffle order decides which bid is matched. -/
def c2book : List BookRow :=
  [ { id_agent := "a1", energy_in := 3, energy_out := 0, price_pu_in := 10, price_pu_out := 0 },
    { id_agent := "a2", energy_in := 5, energy_out := 0, price_pu_in := 10, price_pu_out := 0 },
    { id_agent := "s1", energy_in := 0, energy_out := 3, price_pu_in := 0, price_pu_out := 2 } ]

/-- A market database with empty tables and no retailer quotes. -/
def c2m0 : MarketDB :=
  { bids_cleared := [], offers_cleared := [], bids_uncleared := []
    offers_uncleared := [], transactions := [], retailer := [] }

/-- A row committed to the cleared-bids table by an earlier timetable row. -/
def c3prior : ClearedBid :=
  { id_agent_in := "previous", energy_in := 1, price_pu_in := 1, price_in := 1 }

/-- A market database already holding `c3prior` from an earlier step. -/
def c3m0 : MarketDB :=
  { bids_cleared := [c3prior], offers_cleared := [], bids_uncleared := []
    offers_uncleared := [], transactions := [], retailer := [] }

/-- A book with one matching bid and offer for the step run against
`c3m0`. -/
def c3book : List BookRow :=
  [ { id_agent := "agent1", energy_in := 5, energy_out := 0, price_pu_in := 10, price_pu_out := 0 },
    { id_agent := "agent2", energy_in := 0, energy_out := 5, price_pu_in := 0, price_pu_out := 8 } ]

/-- The timing configuration of claims C4 and C5 (spec scenario 5):
`opening=3600, frequency=900, horizon=[0,3600], duration=900, closing=1800,
settling=continuous`. -/
def c5timing : TimingCfg :=
  { start := 0, opening := 3600, frequency := 900, duration := 900
    horizon0 := 0, horizon1 := 3600, closing := 1800, settling := "continuous" }

/-- The timetable the builder produces for `c5timing` over one opening. -/
def c5rows : List TTRow :=
  [ { timestamp := 0, timestep := 0, action := "settle" },
    { timestamp := 0, timestep := 900, action := "settle" },
    { timestamp := 0, timestep := 1800, action := "clear" },
    { timestamp := 0, timestep := 2700, action := "clear" },
    { timestamp := 900, timestep := 900, action := "settle" },
    { timestamp := 900, timestep := 1800, action := "settle" },
    { timestamp := 900, timestep := 2700, action := "clear" },
    { timestamp := 1800, timestep := 1800, action := "settle" },
    { timestamp := 1800, timestep := 2700, action := "settle" },
    { timestamp := 2700, timestep := 2700, action := "settle" } ]

/-- The book of spec scenario 1: one bid `(price_pu_in=10, energy_in=5)` and
one offer `(price_pu_out=8, energy_out=5)`. -/
def c8book : List BookRow :=
  [ { id_agent := "agent1", energy_in := 5, energy_out := 0, price_pu_in := 10, price_pu_out := 0 },
    { id_agent := "agent2", energy_in := 0, energy_out := 5, price_pu_in := 0, price_pu_out := 8 } ]

/-! ### Theorems -/

/-! Properties of the stable insertion sort. -/

theorem insertLe_perm (le : α → α → Bool) (a : α) :
    ∀ l : List α, (insertLe le a l).Perm (a :: l)
  | [] => List.Perm.refl _
  | b :: t => by
    unfold insertLe
    by_cases h : le a b = true
    · simp [h]
    · simp only [h, if_false, Bool.false_eq_true, if_neg]
      exact ((insertLe_perm le a t).cons b).trans (List.Perm.swap a b t)

theorem sortLe_perm (le : α → α → Bool) : ∀ l : List α, (sortLe le l).Perm l
  | [] => List.Perm.refl _
  | a :: t => (insertLe_perm le a (sortLe le t)).trans ((sortLe_perm le t).cons a)

theorem insertLe_pairwise (le : α → α → Bool)
    (htot : ∀ a b, le a b = true ∨ le b a = true)
    (htr : ∀ a b c, le a b = true → le b c = true → le a c = true) (a : α) :
    ∀ l : List α, l.Pairwise (fun x y => le x y = true) →
      (insertLe le a l).Pairwise (fun x y => le x y = true)
  | [], _ => by simp [insertLe]
  | b :: t, hp => by
    rcases List.pairwise_cons.mp hp with ⟨hb, ht⟩
    unfold insertLe
    by_cases h : le a b = true
    · simp only [h, if_true]
      refine List.pairwise_cons.mpr ⟨?_, hp⟩
      intro y hy
      rcases List.mem_cons.mp hy with hyb | hyt
      · exact hyb.symm ▸ h
      · exact htr a b y h (hb y hyt)
    · simp only [h, Bool.false_eq_true, if_neg, if_false]
      refine List.pairwise_cons.mpr ⟨?_, insertLe_pairwise le htot htr a t ht⟩
      intro y hy
      have hy2 : y ∈ a :: t := (insertLe_perm le a t).mem_iff.mp hy
      rcases List.mem_cons.mp hy2 with hya | hyt
      · exact hya.symm ▸ ((htot a b).resolve_left h)
      · exact hb y hyt

theorem sortLe_pairwise (le : α → α → Bool)
    (htot : ∀ a b, le a b = true ∨ le b a = true)
    (htr : ∀ a b c, le a b = true → le b c = true → le a c = true) :
    ∀ l : List α, (sortLe le l).Pairwise (fun x y => le x y = true)
  | [] => List.Pairwise.nil
  | a :: t => insertLe_pairwise le htot htr a (sortLe le t) (sortLe_pairwise le htot htr t)

/-- Two sorted lists that are permutations of one another and whose order is
antisymmetric on their members are equal. -/
theorem eq_of_perm_of_pairwiseLe (le : α → α → Bool) (l₁ : List α) :
    ∀ l₂ : List α, l₁.Perm l₂ →
      l₁.Pairwise (fun x y => le x y = true) →
      l₂.Pairwise (fun x y => le x y = true) →
      (∀ a ∈ l₁, ∀ b ∈ l₁, le a b = true → le b a = true → a = b) → l₁ = l₂ := by
  induction l₁ with
  | nil =>
    intro l₂ hp _ _ _
    exact hp.nil_eq
  | cons a t₁ ih =>
    intro l₂ hp h₁ h₂ hanti
    cases l₂ with
    | nil => exact absurd (List.perm_nil.mp hp) (by simp)
    | cons b t₂ =>
      rcases List.pairwise_cons.mp h₁ with ⟨ha, ht₁⟩
      rcases List.pairwise_cons.mp h₂ with ⟨hbp, ht₂⟩
      have hb_mem : b ∈ a :: t₁ := hp.symm.subset (List.mem_cons_self b t₂)
      have hab : a = b := by
        rcases List.mem_cons.mp hb_mem with hba | hbt
        · exact hba.symm
        · have h1 : le a b = true := ha b hbt
          have ha_mem : a ∈ b :: t₂ := hp.subset (List.mem_cons_self a t₁)
          rcases List.mem_cons.mp ha_mem with hab2 | hat2
          · exact hab2
          · exact hanti a (List.mem_cons_self a t₁) b hb_mem h1 (hbp a hat2)
      subst hab
      have hp2 : t₁.Perm t₂ := hp.cons_inv
      have heq : t₁ = t₂ := by
        refine ih t₂ hp2 ht₁ ht₂ ?_
        intro x hx y hy
        exact hanti x (List.mem_cons_of_mem a hx) y (List.mem_cons_of_mem a hy)
      rw [heq]

/-- The stable sort of two permuted lists agrees whenever the comparison is
antisymmetric on the members of the list. -/
theorem sortLe_eq_of_perm (le : α → α → Bool)
    (htot : ∀ a b, le a b = true ∨ le b a = true)
    (htr : ∀ a b c, le a b = true → le b c = true → le a c = true)
    (l₁ l₂ : List α) (hp : l₁.Perm l₂)
    (hanti : ∀ a ∈ l₁, ∀ b ∈ l₁, le a b = true → le b a = true → a = b) :
    sortLe le l₁ = sortLe le l₂ := by
  refine eq_of_perm_of_pairwiseLe le (sortLe le l₁) (sortLe le l₂)
    ((sortLe_perm le l₁).trans (hp.trans (sortLe_perm le l₂).symm))
    (sortLe_pairwise le htot htr l₁) (sortLe_pairwise le htot htr l₂) ?_
  intro a haS b hbS
  exact hanti a ((sortLe_perm le l₁).subset haS) b ((sortLe_perm le l₁).subset hbS)

/-- Congruence of the clearing pipeline in the sorted books. -/
theorem runClearingTables_congr (sb₁ sb₂ : List BidRow) (so₁ so₂ : List OfferRow)
    (pricing : PricingMethod) (names : List String)
    (hb : sort_bids sb₁ = sort_bids sb₂) (ho : sort_offers so₁ = sort_offers so₂) :
    runClearingTables sb₁ so₁ pricing names = runClearingTables sb₂ so₂ pricing names := by
  unfold runClearingTables prepare_bids prepare_offers
  rw [hb, ho]

/-- Distinct bid prices make the sorted bids independent of the shuffle. -/
theorem sort_bids_eq_of_perm (sb₁ sb₂ : List BidRow) (hp : sb₁.Perm sb₂)
    (hn : (sb₁.map fun r => r.price_pu_in).Nodup) :
    sort_bids sb₁ = sort_bids sb₂ := by
  refine sortLe_eq_of_perm _ ?_ ?_ sb₁ sb₂ hp ?_
  · intro a b
    rcases le_total b.price_pu_in a.price_pu_in with h | h
    · exact Or.inl (decide_eq_true h)
    · exact Or.inr (decide_eq_true h)
  · intro a b c h1 h2
    exact decide_eq_true (le_trans (of_decide_eq_true h2) (of_decide_eq_true h1))
  · intro a hma b hmb h1 h2
    have hle : a.price_pu_in = b.price_pu_in :=
      le_antisymm (of_decide_eq_true h2) (of_decide_eq_true h1)
    exact List.inj_on_of_nodup_map hn hma hmb hle

/-- Distinct offer prices make the sorted offers independent of the shuffle. -/
theorem sort_offers_eq_of_perm (so₁ so₂ : List OfferRow) (hp : so₁.Perm so₂)
    (hn : (so₁.map fun r => r.price_pu_out).Nodup) :
    sort_offers so₁ = sort_offers so₂ := by
  refine sortLe_eq_of_perm _ ?_ ?_ so₁ so₂ hp ?_
  · intro a b
    rcases le_total a.price_pu_out b.price_pu_out with h | h
    · exact Or.inl (decide_eq_true h)
    · exact Or.inr (decide_eq_true h)
  · intro a b c h1 h2
    exact decide_eq_true (le_trans (of_decide_eq_true h1) (of_decide_eq_true h2))
  · intro a hma b hmb h1 h2
    have hle : a.price_pu_out = b.price_pu_out :=
      le_antisymm (of_decide_eq_true h1) (of_decide_eq_true h2)
    exact List.inj_on_of_nodup_map hn hma hmb hle

/-- C2 amended.  The clearing action is a function of the book, the retailer
quotes, the task timestep and the two shuffle outcomes; since the source
seeds neither shuffle, reproducibility holds only when the shuffle cannot
influence the sorted books: whenever the bid prices are pairwise distinct
and the offer prices are pairwise distinct, any two shuffle outcomes give
identical market databases. -/
theorem c2_reproducible_for_distinct_prices (market : MarketDB) (timestep : Int)
    (book : List BookRow) (pricing : PricingMethod)
    (sb₁ sb₂ : List BidRow) (so₁ so₂ : List OfferRow)
    (hb : sb₁.Perm sb₂) (ho : so₁.Perm so₂)
    (hbn : (sb₁.map fun r => r.price_pu_in).Nodup)
    (hon : (so₁.map fun r => r.price_pu_out).Nodup) :
    action_clear market timestep book pricing sb₁ so₁ =
      action_clear market timestep book pricing sb₂ so₂ := by
  have hsb : sort_bids sb₁ = sort_bids sb₂ := sort_bids_eq_of_perm sb₁ sb₂ hb hbn
  have hso : sort_offers so₁ = sort_offers so₂ := sort_offers_eq_of_perm so₁ so₂ ho hon
  unfold action_clear
  split
  · rfl
  · exact congrArg _ (runClearingTables_congr sb₁ sb₂ so₁ so₂ pricing _ hsb hso)

/-- C2 witness: concrete instantiation of the amended reproducibility
theorem at a book with distinct prices. -/
theorem c2_reproducible_witness :
    action_clear c2m0 0 c2book .uniform
      [ { id_agent_in := "w1", energy_in := 3, price_pu_in := 10 },
        { id_agent_in := "w2", energy_in := 5, price_pu_in := 7 } ]
      [ { id_agent_out := "s1", energy_out := 3, price_pu_out := 2 } ] =
    action_clear c2m0 0 c2book .uniform
      [ { id_agent_in := "w2", energy_in := 5, price_pu_in := 7 },
        { id_agent_in := "w1", energy_in := 3, price_pu_in := 10 } ]
      [ { id_agent_out := "s1", energy_out := 3, price_pu_out := 2 } ] :=
  c2_reproducible_for_distinct_prices c2m0 0 c2book .uniform _ _ _ _
    (List.Perm.swap _ _ _) (List.Perm.refl _) (by decide) (by decide)

/-- C3 amended.  After a clearing step over a non-empty book the five tables
of the market database are exactly the tables derived in that step: the
result does not depend on the five tables previously committed (only the
retailer table, which the step reads, matters), because `Lem.__init__`
empties the working copies and `__update_database` writes them back over
the database fields. -/
theorem c3_tables_replaced_wholesale (m₁ m₂ : MarketDB) (timestep : Int)
    (book : List BookRow) (pricing : PricingMethod)
    (sb : List BidRow) (so : List OfferRow)
    (hret : m₁.retailer = m₂.retailer) (hbook : book ≠ []) :
    (action_clear m₁ timestep book pricing sb so).map marketTables =
      (action_clear m₂ timestep book pricing sb so).map marketTables := by
  unfold action_clear
  rw [if_neg (by simpa using hbook), if_neg (by simpa using hbook), hret]
  cases runClearingTables sb so pricing
      (((m₂.retailer.filter fun r => decide (r.timestamp = timestep)).map
        retailer_to_book).map fun r => r.id_agent) with
  | none => rfl
  | some t => rfl

/-- C3 witness: the step of the counterexample yields the same five tables
whether it starts from the database holding `c3prior` or from the empty
database. -/
theorem c3_tables_replaced_witness :
    (action_clear c3m0 0 c3book .uniform (split_bids_offers c3book).1
        (split_bids_offers c3book).2).map marketTables =
      (action_clear c2m0 0 c3book .uniform (split_bids_offers c3book).1
        (split_bids_offers c3book).2).map marketTables :=
  c3_tables_replaced_wholesale c3m0 c2m0 0 c3book .uniform _ _ rfl (by decide)

/-- C8.  Spec scenario 1: for the book of one bid `(10, 5)` and one offer
`(8, 5)` any shuffle outcome clears exactly one trade with `energy = 5`,
`price_pu = 9` and `price = 45`, and both uncleared tables are empty. -/
theorem c8_single_trivial_match (sb : List BidRow) (so : List OfferRow)
    (hb : sb.Perm (split_bids_offers c8book).1)
    (ho : so.Perm (split_bids_offers c8book).2) :
    clear_bids_offers (prepare_bids sb) (prepare_offers so) .uniform =
      some ([{ toPricedTrade :=
                { toTrade :=
                    { id_agent_in := "agent1", energy_in := 5, price_pu_in := 10
                      id_agent_out := "agent2", energy_out := 5, price_pu_out := 8
                      energy_cumsum := 5 }
                  price_pu := 9 }
               energy := 5, price := 45 }], []) ∧
    runClearingTables sb so .uniform [] =
      some { bids_cleared := [{ id_agent_in := "agent1", energy_in := 5
                                price_pu_in := 9, price_in := 45 }]
             offers_cleared := [{ id_agent_out := "agent2", energy_out := 5
                                  price_pu_out := 9, price_out := 45 }]
             bids_uncleared := []
             offers_uncleared := []
             transactions :=
               [ { id_agent := "agent1", energy_in := some 5, price_pu_in := some 9
                   price_in := some 45, energy_out := none, price_pu_out := none
                   price_out := none, type_transaction := TType.market, quality := 0 },
                 { id_agent := "agent2", energy_in := none, price_pu_in := none
                   price_in := none, energy_out := some 5, price_pu_out := some 9
                   price_out := some 45, type_transaction := TType.market, quality := 0 } ] } := by
  have e1 : (split_bids_offers c8book).1 =
      [{ id_agent_in := "agent1", energy_in := 5, price_pu_in := 10 }] := by decide
  have e2 : (split_bids_offers c8book).2 =
      [{ id_agent_out := "agent2", energy_out := 5, price_pu_out := 8 }] := by decide
  rw [e1] at hb
  rw [e2] at ho
  have hb2 := List.perm_singleton.mp hb
  have ho2 := List.perm_singleton.mp ho
  subst hb2
  subst ho2
  exact ⟨by decide, by decide⟩

/-- C8 witness: instantiation at the identity shuffle. -/
theorem c8_single_trivial_match_witness :
    clear_bids_offers (prepare_bids (split_bids_offers c8book).1)
        (prepare_offers (split_bids_offers c8book).2) .uniform =
      some ([{ toPricedTrade :=
                { toTrade :=
                    { id_agent_in := "agent1", energy_in := 5, price_pu_in := 10
                      id_agent_out := "agent2", energy_out := 5, price_pu_out := 8
                      energy_cumsum := 5 }
                  price_pu := 9 }
               energy := 5, price := 45 }], []) ∧
    runClearingTables (split_bids_offers c8book).1 (split_bids_offers c8book).2 .uniform [] =
      some { bids_cleared := [{ id_agent_in := "agent1", energy_in := 5
                                price_pu_in := 9, price_in := 45 }]
             offers_cleared := [{ id_agent_out := "agent2", energy_out := 5
                                  price_pu_out := 9, price_out := 45 }]
             bids_uncleared := []
             offers_uncleared := []
             transactions :=
               [ { id_agent := "agent1", energy_in := some 5, price_pu_in := some 9
                   price_in := some 45, energy_out := none, price_pu_out := none
                   price_out := none, type_transaction := TType.market, quality := 0 },
                 { id_agent := "agent2", energy_in := none, price_pu_in := none
                   price_in := none, energy_out := some 5, price_pu_out := some 9
                   price_out := some 45, type_transaction := TType.market, quality := 0 } ] } :=
  c8_single_trivial_match _ _ (List.Perm.refl _) (List.Perm.refl _)

/-- C1.  The claim states that under `pricing=uniform` every cleared row
receives one common price, `round((last(price_pu_in) + last(price_pu_out)) / 2)`
taken at the marginal cleared row — which is also what the docstring of
`__pricing_uniform` promises.  The code instead takes `Expr.tail()`, whose
default is the last ten rows: on the two cleared rows with prices (10, 2)
and (6, 4) it assigns the per-row midpoints 6 and 5, while the claimed
single marginal price is `round((6 + 4) / 2) = 5`. -/
theorem c1_uniform_not_single_price :
    (clear_bids_offers (prepare_bids c1bids) (prepare_offers c1offers) .uniform).map
        (fun res => res.1.map fun t => t.price_pu) = some [6, 5] ∧
    roundHalfDiv2 (4 + 6) = 5 ∧ (6 : Int) ≠ 5 := by
  refine ⟨by decide, by decide, by decide⟩

/-- C2 counterexample.  Two runs of the clearing action on the same market
database, the same book `c2book` and the same task timestep, whose unseeded
shuffles return the two orders of the equally priced bids, commit different
cleared-bids tables: the claim that any two runs on the same inputs produce
identical result tables is false on the code, whose
`sample(fraction=1, shuffle=True)` carries no seed. -/
theorem c2_unseeded_shuffle_changes_tables :
    ([ { id_agent_in := "a1", energy_in := 3, price_pu_in := 10 },
       { id_agent_in := "a2", energy_in := 5, price_pu_in := 10 } ] : List BidRow).Perm
      [ { id_agent_in := "a2", energy_in := 5, price_pu_in := 10 },
        { id_agent_in := "a1", energy_in := 3, price_pu_in := 10 } ] ∧
    (split_bids_offers c2book).1 =
      [ { id_agent_in := "a1", energy_in := 3, price_pu_in := 10 },
        { id_agent_in := "a2", energy_in := 5, price_pu_in := 10 } ] ∧
    action_clear c2m0 0 c2book .uniform
        [ { id_agent_in := "a1", energy_in := 3, price_pu_in := 10 },
          { id_agent_in := "a2", energy_in := 5, price_pu_in := 10 } ]
        (split_bids_offers c2book).2 ≠
      action_clear c2m0 0 c2book .uniform
        [ { id_agent_in := "a2", energy_in := 5, price_pu_in := 10 },
          { id_agent_in := "a1", energy_in := 3, price_pu_in := 10 } ]
        (split_bids_offers c2book).2 := by
  refine ⟨by decide, by decide, by decide⟩

/-- C3 counterexample.  A step over `c3book` run against a database that
already holds the row `c3prior` (committed for an earlier timetable row)
produces a database whose cleared-bids table no longer contains `c3prior`:
`Lem.__init__` empties the five tables with `clear()` and
`__update_database` overwrites the database fields with the freshly derived
rows only. -/
theorem c3_prior_rows_lost :
    c3prior ∈ c3m0.bids_cleared ∧
    (action_clear c3m0 0 c3book .uniform (split_bids_offers c3book).1
        (split_bids_offers c3book).2).map
      (fun m => decide (c3prior ∈ m.bids_cleared)) = some false := by
  refine ⟨by decide, by decide⟩

/-- C5 counterexample.  For the configuration of spec scenario 5
(`opening=3600, frequency=900, horizon=[0,3600], duration=900,
closing=1800, settling=continuous`) the generated timetable contains no row
with action `clear,settle`: the claim that some row within each opening
carries `clear,settle` is false, because every row with `timestep ≤
timestamp` also satisfies `timestep - timestamp < closing` and its action is
replaced by `settle`. -/
theorem c5_no_clear_settle_row :
    create_timetable_ex_ante 0 3600 c5timing = .ok c5rows ∧
    c5rows.all (fun r => decide (r.action ≠ "clear,settle")) = true := by
  refine ⟨rfl, by decide⟩

/-- C5 amended.  For the same configuration the actions do transition with
the approach of the delivery step, but directly from `clear` to `settle`:
every row has action `settle` exactly when `timestep - timestamp < 1800`
and `clear` otherwise, and both actions occur. -/
theorem c5_actions_clear_then_settle :
    create_timetable_ex_ante 0 3600 c5timing = .ok c5rows ∧
    c5rows.all (fun r =>
      r.action = if r.timestep - r.timestamp < 1800 then "settle" else "clear") = true ∧
    c5rows.any (fun r => decide (r.action = "clear")) = true ∧
    c5rows.any (fun r => decide (r.action = "settle")) = true := by
  refine ⟨rfl, by decide, by decide, by decide⟩

/-- C4.  For `settling = continuous` every row of a frequency block starts
with action `clear`, and after the two settling stages a row with
`timestep - timestamp < closing` carries exactly `settle`, a remaining row
with `timestep ≤ timestamp` carries `clear,settle`, and every other row
carries `clear`. -/
theorem c4_continuous_block_actions (timing : TimingCfg) (tO tF : Int)
    (hset : timing.settling = "continuous") :
    (∀ r ∈ blockInitial timing tO tF, r.action = "clear" ∧ r.timestamp = tF) ∧
    (∀ rows, buildBlock timing tO tF = .ok rows → ∀ r ∈ rows,
      r.timestamp = tF ∧
      r.action = (if r.timestep - tF < timing.closing then "settle"
        else if r.timestep ≤ tF then "clear,settle" else "clear")) := by
  constructor
  · intro r hr
    rcases List.mem_map.mp hr with ⟨t, _, rfl⟩
    exact ⟨rfl, rfl⟩
  · intro rows hok r hr
    unfold buildBlock blockReplaceSettle blockAppendSettle at hok
    rw [hset] at hok
    simp only [if_pos rfl] at hok
    have hrows := (Except.ok.inj hok).symm
    subst hrows
    rcases List.mem_map.mp hr with ⟨r1, hr1, rfl⟩
    rcases List.mem_map.mp hr1 with ⟨r0, hr0, rfl⟩
    rcases List.mem_map.mp hr0 with ⟨t, _, rfl⟩
    by_cases h1 : t ≤ tF <;> by_cases h2 : t - tF < timing.closing <;>
      simp [h1, h2]

/-- C4 witness: the middle frequency block of the C5 configuration at
`timestamp = 900`, evaluated at its first row. -/
theorem c4_continuous_block_actions_witness :
    ({ timestamp := 900, timestep := 900, action := "settle" } : TTRow).timestamp = 900 ∧
    ({ timestamp := 900, timestep := 900, action := "settle" } : TTRow).action =
      (if ({ timestamp := 900, timestep := 900, action := "settle" } : TTRow).timestep
            - 900 < c5timing.closing then "settle"
        else if ({ timestamp := 900, timestep := 900, action := "settle" } : TTRow).timestep
            ≤ (900 : Int) then "clear,settle" else "clear") :=
  (c4_continuous_block_actions c5timing 0 900 rfl).2
    [ { timestamp := 900, timestep := 900, action := "settle" },
      { timestamp := 900, timestep := 1800, action := "settle" },
      { timestamp := 900, timestep := 2700, action := "clear" } ]
    rfl { timestamp := 900, timestep := 900, action := "settle" } (by decide)

/-- Every cleared trade satisfies the clearing filter
`price_pu_in >= price_pu_out`. -/
theorem clearedTrades_out_le_in (rows : List JoinRow) :
    ∀ t ∈ clearedTrades rows, t.price_pu_out ≤ t.price_pu_in := by
  intro t ht
  rcases List.mem_filterMap.mp ht with ⟨row, _hrow, hmk⟩
  cases hb : row.bid with
  | none => rw [hb] at hmk; simp at hmk
  | some b =>
    cases ho : row.offer with
    | none => rw [hb, ho] at hmk; simp at hmk
    | some o =>
      rw [hb, ho] at hmk
      have hmk2 : (if o.price_pu_out ≤ b.price_pu_in then
          some { id_agent_in := b.id_agent_in, energy_in := b.energy_in
                 price_pu_in := b.price_pu_in, id_agent_out := o.id_agent_out
                 energy_out := o.energy_out, price_pu_out := o.price_pu_out
                 energy_cumsum := row.energy_cumsum } else (none : Option Trade)) =
          some t := hmk
      split_ifs at hmk2 with hpr
      cases Option.some.inj hmk2
      exact hpr

/-- The midpoint rounding stays between the two prices. -/
theorem roundHalfDiv2_between (o i : Int) (h : o ≤ i) :
    o ≤ roundHalfDiv2 (o + i) ∧ roundHalfDiv2 (o + i) ≤ i := by
  unfold roundHalfDiv2
  split <;> constructor <;> omega

/-- C6.  Whenever `__clear_bids_offers` returns (under either registered
pricing method), every row of the cleared set satisfies
`price_pu_out ≤ price_pu ≤ price_pu_in`. -/
theorem c6_price_between (bidsC : List (BidRow × Nat)) (offersC : List (OfferRow × Nat))
    (pricing : PricingMethod) (cleared : List ClearedTrade) (uncleared : List Trade)
    (h : clear_bids_offers bidsC offersC pricing = some (cleared, uncleared)) :
    ∀ t ∈ cleared, t.price_pu_out ≤ t.price_pu ∧ t.price_pu ≤ t.price_pu_in := by
  intro t ht
  cases pricing with
  | discriminatory =>
    simp [clear_bids_offers, applyPricing, pricing_discriminatory] at h
  | uniform =>
    simp only [clear_bids_offers, applyPricing, pricing_uniform] at h
    split_ifs at h with hlen
    · simp only [Option.map_some', Option.some.injEq, Prod.mk.injEq] at h
      obtain ⟨hc, _hu⟩ := h
      rw [← hc] at ht
      unfold withEnergyPrice at ht
      rcases List.mem_map.mp ht with ⟨t1, ht1, rfl⟩
      rcases List.mem_map.mp ht1 with ⟨t0, ht0, rfl⟩
      exact roundHalfDiv2_between _ _
        (clearedTrades_out_le_in (backfillRows (joinOnCumsum bidsC offersC)) t0 ht0)
    · simp at h

/-- C6 witness: the bound evaluated on the first cleared row of the two-pair
book of C1. -/
theorem c6_price_between_witness : (2 : Int) ≤ 6 ∧ (6 : Int) ≤ 10 :=
  c6_price_between (prepare_bids c1bids) (prepare_offers c1offers) .uniform
    [ { toPricedTrade :=
          { toTrade :=
              { id_agent_in := "a1", energy_in := 5, price_pu_in := 10
                id_agent_out := "s1", energy_out := 5, price_pu_out := 2
                energy_cumsum := 5 }
            price_pu := 6 }
        energy := 5, price := 30 },
      { toPricedTrade :=
          { toTrade :=
              { id_agent_in := "a2", energy_in := 3, price_pu_in := 6
                id_agent_out := "s2", energy_out := 3, price_pu_out := 4
                energy_cumsum := 8 }
            price_pu := 5 }
        energy := 3, price := 15 } ] [] rfl
    { toPricedTrade :=
        { toTrade :=
            { id_agent_in := "a1", energy_in := 5, price_pu_in := 10
              id_agent_out := "s1", energy_out := 5, price_pu_out := 2
              energy_cumsum := 5 }
          price_pu := 6 }
      energy := 5, price := 30 } (by decide)

/-- A successful `exMapM` maps the last element of the input to the last
element of the output. -/
theorem exMapM_getLast (f : α → Except ε β) :
    ∀ (l : List α) (bs : List β), exMapM f l = .ok bs →
      ∀ a, l.getLast? = some a → ∃ b, f a = .ok b ∧ bs.getLast? = some b
  | [], _, _, a, hl => by simp at hl
  | x :: t, bs, h, a, hl => by
    unfold exMapM at h
    cases hfx : f x with
    | error e => rw [hfx] at h; exact absurd h (by simp)
    | ok b =>
      rw [hfx] at h
      cases ht : exMapM f t with
      | error e => rw [ht] at h; exact absurd h (by simp)
      | ok bs2 =>
        rw [ht] at h
        have hbs : bs = b :: bs2 := (Except.ok.inj h).symm
        subst hbs
        cases t with
        | nil =>
          have hb2 : ([] : List β) = bs2 := Except.ok.inj ht
          have ha : x = a := by simpa using hl
          subst ha
          rw [← hb2]
          exact ⟨b, hfx, by simp⟩
        | cons y ys =>
          rw [List.getLast?_cons_cons] at hl
          obtain ⟨b2, hfb2, hlast2⟩ := exMapM_getLast f (y :: ys) bs2 ht a hl
          cases bs2 with
          | nil => simp at hlast2
          | cons z zs =>
            exact ⟨b2, hfb2, by rw [List.getLast?_cons_cons]; exact hlast2⟩

/-- C10.  When `create_retailers_from_config` succeeds on a pricing
configuration, the table it returns is precisely the table built for the
retailer iterated last; the tables built for the other retailers are not
part of the return value. -/
theorem c10_returns_last_retailer (tt : List TTRow)
    (pricing : List (String × List (String × ComponentCfg)))
    (kv : String × List (String × ComponentCfg)) (tbl : RetailerTable)
    (hlast : pricing.getLast? = some kv)
    (hok : create_retailers_from_config tt pricing = .ok tbl) :
    create_retailer kv.1 kv.2 tt = .ok tbl := by
  unfold create_retailers_from_config at hok
  cases hm : exMapM (fun kv2 => create_retailer kv2.1 kv2.2 tt) pricing with
  | error e => rw [hm] at hok; exact absurd hok (by simp)
  | ok tables =>
    rw [hm] at hok
    obtain ⟨b, hfb, hbl⟩ := exMapM_getLast _ pricing tables hm kv hlast
    have hok2 : (match tables.getLast? with
        | some t => (Except.ok t : Except String RetailerTable)
        | none => Except.error "no retailer configured") = Except.ok tbl := hok
    rw [hbl] at hok2
    rw [← Except.ok.inj hok2]
    exact hfb

/-- A two-retailer pricing configuration with different fixed prices. -/
def c10pricing : List (String × List (String × ComponentCfg)) :=
  [ ("retailer1",
      [("energy", { method := "fixed", fixed := [("price", .pair 10 5)], file := [] })]),
    ("retailer2",
      [("energy", { method := "fixed", fixed := [("price", .pair 20 15)], file := [] })]) ]

/-- C10 witness: on `c10pricing` the returned table is the one of
`retailer2`, the retailer iterated last. -/
theorem c10_returns_last_retailer_witness :
    create_retailer "retailer2"
        [("energy", { method := "fixed", fixed := [("price", .pair 20 15)], file := [] })] [] =
      .ok { timestamps := [], retailer := "retailer2"
            cols := [("energy_price_sell", 20), ("energy_price_buy", 15)] } :=
  c10_returns_last_retailer [] c10pricing
    ("retailer2",
      [("energy", { method := "fixed", fixed := [("price", .pair 20 15)], file := [] })])
    { timestamps := [], retailer := "retailer2"
      cols := [("energy_price_sell", 20), ("energy_price_buy", 15)] } rfl rfl

/-! Summation lemmas used for the energy-conservation claim. -/

theorem sum_flatMap_eq (F : α → List Nat) :
    ∀ l : List α, (l.flatMap F).sum = (l.map fun a => (F a).sum).sum
  | [] => rfl
  | a :: t => by
    simp only [List.flatMap_cons, List.sum_append, List.map_cons, List.sum_cons]
    rw [sum_flatMap_eq F t]

theorem sum_filter_eq_sum (p : α → Bool) (g : α → Nat) :
    ∀ l : List α, (∀ a ∈ l, p a = false → g a = 0) →
      ((l.filter p).map g).sum = (l.map g).sum
  | [], _ => rfl
  | a :: t, h => by
    have ht := sum_filter_eq_sum p g t fun x hx => h x (List.mem_cons_of_mem a hx)
    by_cases hp : p a = true
    · rw [List.filter_cons_of_pos hp]
      simp only [List.map_cons, List.sum_cons, ht]
    · rw [List.filter_cons_of_neg hp]
      simp only [List.map_cons, List.sum_cons, ht]
      rw [h a (List.mem_cons_self a t) (by simpa using hp)]
      omega

theorem sum_map_add (f g : α → Nat) : ∀ l : List α,
    (l.map fun a => f a + g a).sum = (l.map f).sum + (l.map g).sum
  | [] => rfl
  | a :: t => by
    simp only [List.map_cons, List.sum_cons, sum_map_add f g t]
    omega

theorem sum_ite_zero (k : α → String) (v : Nat) (a0 : String) :
    ∀ l : List α, (∀ x ∈ l, a0 ≠ k x) →
      (l.map fun b => if a0 = k b then v else 0).sum = 0
  | [], _ => rfl
  | b :: t, h => by
    simp only [List.map_cons, List.sum_cons]
    rw [if_neg (h b (List.mem_cons_self b t)),
      sum_ite_zero k v a0 t fun x hx => h x (List.mem_cons_of_mem b hx)]

theorem sum_ite_key (k : α → String) (v : Nat) (a0 : String) :
    ∀ l : List α, (l.map k).Nodup → a0 ∈ l.map k →
      (l.map fun b => if a0 = k b then v else 0).sum = v
  | [], _, hm => by simp at hm
  | b :: t, hnd, hm => by
    simp only [List.map_cons, List.nodup_cons] at hnd
    obtain ⟨hnotin, hnd2⟩ := hnd
    by_cases hb : a0 = k b
    · simp only [List.map_cons, List.sum_cons, if_pos hb]
      rw [sum_ite_zero k v a0 t fun x hx hax =>
        hnotin (by rw [show k b = k x from hb.symm.trans hax]
                   exact List.mem_map_of_mem k hx)]
      omega
    · have hm2 : a0 ∈ t.map k := by
        rcases (by simpa using hm : a0 = k b ∨ ∃ a ∈ t, k a = a0) with h1 | ⟨a, ha, hka⟩
        · exact absurd h1 hb
        · exact hka ▸ List.mem_map_of_mem k ha
      simp only [List.map_cons, List.sum_cons, if_neg hb]
      rw [sum_ite_key k v a0 t hnd2 hm2]
      omega

theorem sum_partition (k : α → String) (tk : β → String) (e : β → Nat) :
    ∀ (ts : List β) (l : List α), (l.map k).Nodup →
      (∀ x ∈ ts, tk x ∈ l.map k) →
      (l.map fun b => ((ts.filter fun x => decide (tk x = k b)).map e).sum).sum
        = (ts.map e).sum
  | [], l, _, _ => by simp
  | t :: ts, l, hnd, hcov => by
    have hstep : ∀ b : α,
        (((t :: ts).filter fun x => decide (tk x = k b)).map e).sum
          = (if tk t = k b then e t else 0)
            + ((ts.filter fun x => decide (tk x = k b)).map e).sum := by
      intro b
      by_cases h : tk t = k b
      · simp [List.filter_cons, h]
      · simp [List.filter_cons, h]
    rw [List.map_congr_left fun b _ => hstep b, sum_map_add, List.map_cons, List.sum_cons]
    rw [sum_ite_key k (e t) (tk t) l hnd (hcov t (List.mem_cons_self t ts))]
    rw [sum_partition k tk e ts l hnd fun x hx => hcov x (List.mem_cons_of_mem t hx)]

/-- The semi-join of a keyed table with a trade list, inner-joined back and
summed, recovers the total of the trade list when keys are unique on the
table and every trade key occurs in the table. -/
theorem sum_semi_join (k : α → String) (tk : β → String) (e : β → Nat)
    (l : List α) (ts : List β)
    (hnd : (l.map k).Nodup) (hcov : ∀ x ∈ ts, tk x ∈ l.map k) :
    ((l.filter fun b => ts.any fun x => decide (tk x = k b)).flatMap
      fun b => (ts.filter fun x => decide (tk x = k b)).map e).sum = (ts.map e).sum := by
  rw [sum_flatMap_eq]
  rw [sum_filter_eq_sum _ _ _ ?zero]
  case zero =>
    intro b _ hany
    rw [List.filter_eq_nil_iff.mpr fun x hx => by
      simpa using List.any_eq_false.mp hany x hx]
    rfl
  exact sum_partition k tk e ts l hnd hcov

/-! Provenance of the agent ids of the cleared trades: every cleared trade
carries the agent id of a bid of the sorted book on its buy side and of an
offer on its sell side (the backward fill only moves rows already present
in the join). -/

theorem backfillRows_bid_mem : ∀ (l : List JoinRow) (r : JoinRow) (b : BidRow),
    r ∈ backfillRows l → r.bid = some b → ∃ r2 ∈ l, r2.bid = some b
  | [], r, b, hr, _ => by simp [backfillRows] at hr
  | x :: xs, r, b, hr, hb => by
    unfold backfillRows at hr
    rcases List.mem_cons.mp hr with hhead | htail
    · subst hhead
      cases hxb : x.bid with
      | some b2 =>
        rw [hxb] at hb
        have hb2 : some b2 = some b := hb
        exact ⟨x, List.mem_cons_self x xs, by rw [hxb, Option.some.inj hb2]⟩
      | none =>
        rw [hxb] at hb
        have hb2 : ((backfillRows xs).head?.bind fun y => y.bid) = some b := hb
        obtain ⟨y, hy, hyb⟩ := Option.bind_eq_some.mp hb2
        obtain ⟨r2, hr2, hb3⟩ :=
          backfillRows_bid_mem xs y b (List.mem_of_mem_head? (by rw [hy]; exact rfl)) hyb
        exact ⟨r2, List.mem_cons_of_mem x hr2, hb3⟩
    · obtain ⟨r2, hr2, hb2⟩ := backfillRows_bid_mem xs r b htail hb
      exact ⟨r2, List.mem_cons_of_mem x hr2, hb2⟩

theorem backfillRows_offer_mem : ∀ (l : List JoinRow) (r : JoinRow) (o : OfferRow),
    r ∈ backfillRows l → r.offer = some o → ∃ r2 ∈ l, r2.offer = some o
  | [], r, o, hr, _ => by simp [backfillRows] at hr
  | x :: xs, r, o, hr, hb => by
    unfold backfillRows at hr
    rcases List.mem_cons.mp hr with hhead | htail
    · subst hhead
      cases hxb : x.offer with
      | some o2 =>
        rw [hxb] at hb
        have hb2 : some o2 = some o := hb
        exact ⟨x, List.mem_cons_self x xs, by rw [hxb, Option.some.inj hb2]⟩
      | none =>
        rw [hxb] at hb
        have hb2 : ((backfillRows xs).head?.bind fun y => y.offer) = some o := hb
        obtain ⟨y, hy, hyb⟩ := Option.bind_eq_some.mp hb2
        obtain ⟨r2, hr2, hb3⟩ :=
          backfillRows_offer_mem xs y o (List.mem_of_mem_head? (by rw [hy]; exact rfl)) hyb
        exact ⟨r2, List.mem_cons_of_mem x hr2, hb3⟩
    · obtain ⟨r2, hr2, hb2⟩ := backfillRows_offer_mem xs r o htail hb
      exact ⟨r2, List.mem_cons_of_mem x hr2, hb2⟩

theorem joinOnCumsum_bid_mem (bids : List (BidRow × Nat)) (offers : List (OfferRow × Nat))
    (r : JoinRow) (b : BidRow) (hr : r ∈ joinOnCumsum bids offers)
    (hb : r.bid = some b) : b ∈ bids.map Prod.fst := by
  unfold joinOnCumsum at hr
  rcases List.mem_map.mp hr with ⟨k, _, rfl⟩
  obtain ⟨p, hp, rfl⟩ := Option.map_eq_some'.mp hb
  exact List.mem_map_of_mem Prod.fst (List.mem_of_find?_eq_some hp)

theorem joinOnCumsum_offer_mem (bids : List (BidRow × Nat)) (offers : List (OfferRow × Nat))
    (r : JoinRow) (o : OfferRow) (hr : r ∈ joinOnCumsum bids offers)
    (ho : r.offer = some o) : o ∈ offers.map Prod.fst := by
  unfold joinOnCumsum at hr
  rcases List.mem_map.mp hr with ⟨k, _, rfl⟩
  obtain ⟨p, hp, rfl⟩ := Option.map_eq_some'.mp ho
  exact List.mem_map_of_mem Prod.fst (List.mem_of_find?_eq_some hp)

/-- Every trade of the cleared filter originates in one joined row with both
sides present; its buy-side agent id is the id of a bid of the book. -/
theorem clearedTrades_agents (bidsC : List (BidRow × Nat)) (offersC : List (OfferRow × Nat)) :
    ∀ t ∈ clearedTrades (backfillRows (joinOnCumsum bidsC offersC)),
      t.id_agent_in ∈ bidsC.map (fun p => p.1.id_agent_in) ∧
      t.id_agent_out ∈ offersC.map (fun p => p.1.id_agent_out) := by
  intro t ht
  rcases List.mem_filterMap.mp ht with ⟨row, hrow, hmk⟩
  cases hb : row.bid with
  | none => rw [hb] at hmk; simp at hmk
  | some b =>
    cases hof : row.offer with
    | none => rw [hb, hof] at hmk; simp at hmk
    | some o =>
      rw [hb, hof] at hmk
      have hmk2 : (if o.price_pu_out ≤ b.price_pu_in then
          some { id_agent_in := b.id_agent_in, energy_in := b.energy_in
                 price_pu_in := b.price_pu_in, id_agent_out := o.id_agent_out
                 energy_out := o.energy_out, price_pu_out := o.price_pu_out
                 energy_cumsum := row.energy_cumsum } else (none : Option Trade)) =
          some t := hmk
      split_ifs at hmk2 with hpr
      cases Option.some.inj hmk2
      constructor
      · obtain ⟨r2, hr2, hb2⟩ := backfillRows_bid_mem _ row b hrow hb
        have := joinOnCumsum_bid_mem bidsC offersC r2 b hr2 hb2
        simpa [List.map_map] using
          List.mem_map_of_mem (fun x : BidRow => x.id_agent_in) this
      · obtain ⟨r2, hr2, ho2⟩ := backfillRows_offer_mem _ row o hrow hof
        have := joinOnCumsum_offer_mem bidsC offersC r2 o hr2 ho2
        simpa [List.map_map] using
          List.mem_map_of_mem (fun x : OfferRow => x.id_agent_out) this

/-- The first components of a cumsum-annotated list are the list itself. -/
theorem withCumsum_map_fst (f : α → Nat) :
    ∀ (acc : Nat) (l : List α), (withCumsum f acc l).map Prod.fst = l
  | _, [] => rfl
  | acc, a :: t => by
    simp only [withCumsum, List.map_cons, withCumsum_map_fst f (acc + f a) t]

/-- The cleared-bids and cleared-offers tables of `__create_market_tables`
carry the same total energy whenever the table keys are unique per side and
every trade key occurs on its side. -/
theorem create_market_tables_energy_balance (bidsC : List (BidRow × Nat))
    (offersC : List (OfferRow × Nat)) (trades : List ClearedTrade)
    (tu : List Trade) (names : List String)
    (hndb : (bidsC.map fun p => p.1.id_agent_in).Nodup)
    (hndo : (offersC.map fun p => p.1.id_agent_out).Nodup)
    (hcovb : ∀ tr ∈ trades, tr.id_agent_in ∈ bidsC.map fun p => p.1.id_agent_in)
    (hcovo : ∀ tr ∈ trades, tr.id_agent_out ∈ offersC.map fun p => p.1.id_agent_out) :
    ((create_market_tables bidsC offersC trades tu names).bids_cleared.map
      fun r => r.energy_in).sum
      = ((create_market_tables bidsC offersC trades tu names).offers_cleared.map
        fun r => r.energy_out).sum := by
  have hbsum := sum_semi_join (fun b : BidRow × Nat => b.1.id_agent_in)
    (fun tr : ClearedTrade => tr.id_agent_in) (fun tr => tr.energy)
    bidsC trades hndb hcovb
  have hosum := sum_semi_join (fun o : OfferRow × Nat => o.1.id_agent_out)
    (fun tr : ClearedTrade => tr.id_agent_out) (fun tr => tr.energy)
    offersC trades hndo hcovo
  have hmapb : (List.map (fun r : ClearedBid => r.energy_in)
      (create_market_tables bidsC offersC trades tu names).bids_cleared).sum
      = ((bidsC.filter fun b =>
            trades.any fun x => decide (x.id_agent_in = b.1.id_agent_in)).flatMap
          fun b => (trades.filter fun x =>
            decide (x.id_agent_in = b.1.id_agent_in)).map fun tr => tr.energy).sum := by
    rw [show (create_market_tables bidsC offersC trades tu names).bids_cleared
        = (bidsC.filter fun b =>
            trades.any fun x => decide (x.id_agent_in = b.1.id_agent_in)).flatMap
            (fun b => (trades.filter fun x =>
              decide (x.id_agent_in = b.1.id_agent_in)).map
              fun tr => ({ id_agent_in := b.1.id_agent_in, energy_in := tr.energy
                           price_pu_in := tr.price_pu, price_in := tr.price } : ClearedBid))
      from rfl]
    rw [List.map_flatMap]
    refine congrArg List.sum (congrArg (List.flatMap _) (funext fun b => ?_))
    rw [List.map_map]
    exact List.map_congr_left fun tr _ => rfl
  have hmapo : (List.map (fun r : ClearedOffer => r.energy_out)
      (create_market_tables bidsC offersC trades tu names).offers_cleared).sum
      = ((offersC.filter fun o =>
            trades.any fun x => decide (x.id_agent_out = o.1.id_agent_out)).flatMap
          fun o => (trades.filter fun x =>
            decide (x.id_agent_out = o.1.id_agent_out)).map fun tr => tr.energy).sum := by
    rw [show (create_market_tables bidsC offersC trades tu names).offers_cleared
        = (offersC.filter fun o =>
            trades.any fun x => decide (x.id_agent_out = o.1.id_agent_out)).flatMap
            (fun o => (trades.filter fun x =>
              decide (x.id_agent_out = o.1.id_agent_out)).map
              fun tr => ({ id_agent_out := o.1.id_agent_out, energy_out := tr.energy
                           price_pu_out := tr.price_pu, price_out := tr.price } : ClearedOffer))
      from rfl]
    rw [List.map_flatMap]
    refine congrArg List.sum (congrArg (List.flatMap _) (funext fun o => ?_))
    rw [List.map_map]
    exact List.map_congr_left fun tr _ => rfl
  rw [hmapb, hmapo]
  exact hbsum.trans hosum.symm

/-- C7.  Whenever a clearing run returns its five tables and the shuffled
books carry pairwise distinct agent ids per side, the cleared energy bought
(sum of `energy_in` over the cleared-bids table) equals the cleared energy
sold (sum of `energy_out` over the cleared-offers table): both equal the
total `energy` of the cleared trades. -/
theorem c7_energy_balance (sb : List BidRow) (so : List OfferRow)
    (pricing : PricingMethod) (names : List String) (t : FiveTables)
    (hb : (sb.map fun r => r.id_agent_in).Nodup)
    (ho : (so.map fun r => r.id_agent_out).Nodup)
    (hrun : runClearingTables sb so pricing names = some t) :
    (t.bids_cleared.map fun r => r.energy_in).sum
      = (t.offers_cleared.map fun r => r.energy_out).sum := by
  unfold runClearingTables at hrun
  cases hcc : clear_bids_offers (prepare_bids sb) (prepare_offers so) pricing with
  | none => rw [hcc] at hrun; simp at hrun
  | some res =>
    rw [hcc] at hrun
    simp only [Option.map_some', Option.some.injEq] at hrun
    subst hrun
    have hag : ∀ tr ∈ res.1,
        tr.id_agent_in ∈ (prepare_bids sb).map (fun p => p.1.id_agent_in) ∧
        tr.id_agent_out ∈ (prepare_offers so).map (fun p => p.1.id_agent_out) := by
      cases pricing with
      | discriminatory =>
        simp [clear_bids_offers, applyPricing, pricing_discriminatory] at hcc
      | uniform =>
        simp only [clear_bids_offers, applyPricing, pricing_uniform] at hcc
        split_ifs at hcc with hlen
        · simp only [Option.map_some', Option.some.injEq] at hcc
          intro tr htr
          rw [← hcc] at htr
          have htr1 : tr ∈ withEnergyPrice (List.map
              (fun t => { toTrade := t
                          price_pu := roundHalfDiv2 (t.price_pu_out + t.price_pu_in) })
              (clearedTrades (backfillRows
                (joinOnCumsum (prepare_bids sb) (prepare_offers so))))) := htr
          unfold withEnergyPrice at htr1
          rcases List.mem_map.mp htr1 with ⟨t1, ht1, rfl⟩
          rcases List.mem_map.mp ht1 with ⟨t0, ht0, rfl⟩
          exact clearedTrades_agents (prepare_bids sb) (prepare_offers so) t0 ht0
        · simp at hcc
    have hpermb : ((sort_bids sb).map fun r => r.id_agent_in).Perm
        (sb.map fun r => r.id_agent_in) := by
      unfold sort_bids
      exact (sortLe_perm _ sb).map (fun r : BidRow => r.id_agent_in)
    have hpermo : ((sort_offers so).map fun r => r.id_agent_out).Perm
        (so.map fun r => r.id_agent_out) := by
      unfold sort_offers
      exact (sortLe_perm _ so).map (fun r : OfferRow => r.id_agent_out)
    have hndb : ((prepare_bids sb).map fun p => p.1.id_agent_in).Nodup := by
      have h1 : (prepare_bids sb).map (fun p => p.1.id_agent_in)
          = (sort_bids sb).map fun r => r.id_agent_in := by
        rw [show (fun p : BidRow × Nat => p.1.id_agent_in)
            = (fun r : BidRow => r.id_agent_in) ∘ Prod.fst from rfl]
        rw [← List.map_map, prepare_bids, withCumsum_map_fst]
      rw [h1]
      exact hpermb.symm.nodup hb
    have hndo : ((prepare_offers so).map fun p => p.1.id_agent_out).Nodup := by
      have h1 : (prepare_offers so).map (fun p => p.1.id_agent_out)
          = (sort_offers so).map fun r => r.id_agent_out := by
        rw [show (fun p : OfferRow × Nat => p.1.id_agent_out)
            = (fun r : OfferRow => r.id_agent_out) ∘ Prod.fst from rfl]
        rw [← List.map_map, prepare_offers, withCumsum_map_fst]
      rw [h1]
      exact hpermo.symm.nodup ho
    exact create_market_tables_energy_balance (prepare_bids sb) (prepare_offers so)
      res.1 res.2 names hndb hndo (fun x hx => (hag x hx).1) (fun x hx => (hag x hx).2)

/-- The five tables produced by a uniform clearing run over the two-pair
book `c1bids` / `c1offers`. -/
def c7tables : FiveTables :=
  { bids_cleared :=
      [ { id_agent_in := "a1", energy_in := 5, price_pu_in := 6, price_in := 30 },
        { id_agent_in := "a2", energy_in := 3, price_pu_in := 5, price_in := 15 } ]
    offers_cleared :=
      [ { id_agent_out := "s1", energy_out := 5, price_pu_out := 6, price_out := 30 },
        { id_agent_out := "s2", energy_out := 3, price_pu_out := 5, price_out := 15 } ]
    bids_uncleared := []
    offers_uncleared := []
    transactions :=
      [ { id_agent := "a1", energy_in := some 5, price_pu_in := some 6
          price_in := some 30, energy_out := none, price_pu_out := none
          price_out := none, type_transaction := TType.market, quality := 0 },
        { id_agent := "a2", energy_in := some 3, price_pu_in := some 5
          price_in := some 15, energy_out := none, price_pu_out := none
          price_out := none, type_transaction := TType.market, quality := 0 },
        { id_agent := "s1", energy_in := none, price_pu_in := none
          price_in := none, energy_out := some 5, price_pu_out := some 6
          price_out := some 30, type_transaction := TType.market, quality := 0 },
        { id_agent := "s2", energy_in := none, price_pu_in := none
          price_in := none, energy_out := some 3, price_pu_out := some 5
          price_out := some 15, type_transaction := TType.market, quality := 0 } ] }

/-- C7 witness: the balance evaluated on the two-pair book of claim C1. -/
theorem c7_energy_balance_witness :
    (c7tables.bids_cleared.map fun r => r.energy_in).sum
      = (c7tables.offers_cleared.map fun r => r.energy_out).sum :=
  c7_energy_balance c1bids c1offers .uniform [] c7tables (by decide) (by decide) rfl

/-! Success characterisations of the build-time traversals, for the
configuration-validation claim. -/

theorem exMapM_isOk (f : α → Except ε β) :
    ∀ l : List α, exIsOk (exMapM f l) = true ↔ ∀ a ∈ l, exIsOk (f a) = true
  | [] => by simp [exMapM, exIsOk]
  | a :: t => by
    constructor
    · intro h x hx
      unfold exMapM at h
      cases hfa : f a with
      | error e => rw [hfa] at h; simp [exIsOk] at h
      | ok b =>
        rw [hfa] at h
        cases ht : exMapM f t with
        | error e => rw [ht] at h; simp [exIsOk] at h
        | ok bs =>
          rcases List.mem_cons.mp hx with rfl | hxt
          · rw [hfa]; rfl
          · exact (exMapM_isOk f t).mp (by rw [ht]; rfl) x hxt
    · intro h
      unfold exMapM
      cases hfa : f a with
      | error e =>
        have h2 := h a (List.mem_cons_self a t)
        rw [hfa] at h2
        simp [exIsOk] at h2
      | ok b =>
        cases ht : exMapM f t with
        | error e =>
          have h2 := (exMapM_isOk f t).mpr fun x hx => h x (List.mem_cons_of_mem a hx)
          rw [ht] at h2
          simp [exIsOk] at h2
        | ok bs => rfl

theorem exMapM_ok_ne_nil (f : α → Except ε β) (l : List α) (bs : List β)
    (h : exMapM f l = .ok bs) (hl : l ≠ []) : bs ≠ [] := by
  cases l with
  | nil => exact absurd rfl hl
  | cons a t =>
    unfold exMapM at h
    cases hfa : f a with
    | error e => rw [hfa] at h; simp at h
    | ok b =>
      rw [hfa] at h
      cases ht : exMapM f t with
      | error e => rw [ht] at h; simp at h
      | ok bs2 =>
        rw [ht] at h
        rw [← Except.ok.inj h]
        simp

theorem exFoldlM_addColumns_isOk :
    ∀ (cfg : List (String × ComponentCfg)) (tbl : RetailerTable),
      exIsOk (exFoldlM (fun t kv => add_columns t kv.1 kv.2) tbl cfg) = true ↔
        ∀ comp ∈ cfg, comp.2.method = "fixed" ∨ comp.2.method = "file"
  | [], tbl => by simp [exFoldlM, exIsOk]
  | c :: cfg, tbl => by
    cases hac : add_columns tbl c.1 c.2 with
    | error e =>
      have hm : ¬(c.2.method = "fixed" ∨ c.2.method = "file") := by
        intro hv
        rcases hv with hv | hv <;> simp [add_columns, hv] at hac
      simp only [exFoldlM, hac, List.forall_mem_cons]
      constructor
      · intro h; simp [exIsOk] at h
      · intro h; exact absurd h.1 hm
    | ok tbl2 =>
      have hm : c.2.method = "fixed" ∨ c.2.method = "file" := by
        by_contra hv
        push_neg at hv
        simp [add_columns, hv.1, hv.2] at hac
      simp only [exFoldlM, hac, List.forall_mem_cons]
      rw [exFoldlM_addColumns_isOk cfg tbl2]
      simp [hm]

theorem create_retailer_isOk (name : String) (cfg : List (String × ComponentCfg))
    (tt : List TTRow) :
    exIsOk (create_retailer name cfg tt) = true ↔
      ∀ comp ∈ cfg, comp.2.method = "fixed" ∨ comp.2.method = "file" := by
  unfold create_retailer
  exact exFoldlM_addColumns_isOk cfg _

theorem create_retailers_from_config_isOk (tt : List TTRow)
    (pricing : List (String × List (String × ComponentCfg))) (hne : pricing ≠ []) :
    exIsOk (create_retailers_from_config tt pricing) = true ↔
      ∀ kv ∈ pricing, ∀ comp ∈ kv.2,
        comp.2.method = "fixed" ∨ comp.2.method = "file" := by
  cases hm : exMapM (fun kv => create_retailer kv.1 kv.2 tt) pricing with
  | error e =>
    have hred : create_retailers_from_config tt pricing = .error e := by
      unfold create_retailers_from_config
      rw [hm]
    rw [hred]
    constructor
    · intro h; simp [exIsOk] at h
    · intro h
      have hall : ∀ kv ∈ pricing, exIsOk (create_retailer kv.1 kv.2 tt) = true :=
        fun kv hkv => (create_retailer_isOk kv.1 kv.2 tt).mpr (h kv hkv)
      have h2 := (exMapM_isOk _ pricing).mpr hall
      rw [hm] at h2
      simp [exIsOk] at h2
  | ok tables =>
    have hne2 : tables ≠ [] := exMapM_ok_ne_nil _ pricing tables hm hne
    have hred : create_retailers_from_config tt pricing
        = (match tables.getLast? with
            | some t => (Except.ok t : Except String RetailerTable)
            | none => Except.error "no retailer configured") := by
      unfold create_retailers_from_config
      rw [hm]
    cases tables with
    | nil => exact absurd rfl hne2
    | cons t0 ts =>
      have hsome : ∃ x, (t0 :: ts).getLast? = some x := by
        cases hx : (t0 :: ts).getLast? with
        | none => simp at hx
        | some x => exact ⟨x, rfl⟩
      obtain ⟨x, hx⟩ := hsome
      rw [hx] at hred
      rw [hred]
      constructor
      · intro _
        intro kv hkv
        exact (create_retailer_isOk kv.1 kv.2 tt).mp
          ((exMapM_isOk _ pricing).mp (by rw [hm]; rfl) kv hkv)
      · intro _; rfl

theorem endOpening_isOk (timing : TimingCfg) (tO : Int) :
    exIsOk (endOpening timing tO) = true ↔ timing.frequency ≤ timing.opening := by
  unfold endOpening
  by_cases h1 : timing.frequency = timing.opening
  · simp [h1, exIsOk]
  · by_cases h2 : timing.frequency < timing.opening
    · simp [h1, h2, exIsOk, le_of_lt h2]
    · simp only [h1, h2, if_false, if_neg, exIsOk]
      constructor
      · intro h; simp at h
      · intro h; omega

theorem buildBlock_isOk (timing : TimingCfg) (tO tF : Int) :
    exIsOk (buildBlock timing tO tF) = true ↔
      (timing.settling = "continuous" ∨ timing.settling = "periodic") := by
  unfold buildBlock blockReplaceSettle
  by_cases h1 : timing.settling = "continuous"
  · simp [h1, exIsOk]
  · by_cases h2 : timing.settling = "periodic"
    · simp [h1, h2, exIsOk]
    · simp [h1, h2, exIsOk]

theorem intRange_mem_start (start stop step : Int) (hstep : 0 < step)
    (hlt : start < stop) : start ∈ intRange start stop step := by
  unfold intRange
  rw [if_pos hstep]
  have hn : 1 ≤ (stop - start + step - 1) / step := by
    rw [Int.le_ediv_iff_mul_le hstep]
    omega
  have hn2 : 0 < ((stop - start + step - 1) / step).toNat := by omega
  exact List.mem_map.mpr ⟨0, List.mem_range.mpr hn2, by simp⟩

theorem buildOpening_isOk (timing : TimingCfg) (tO : Int)
    (hfr : 0 < timing.frequency) (hop : 0 < timing.opening)
    (hblk : timing.frequency = timing.opening ∨ 0 < timing.horizon1) :
    exIsOk (buildOpening timing tO) = true ↔
      (timing.frequency ≤ timing.opening ∧
        (timing.settling = "continuous" ∨ timing.settling = "periodic")) := by
  cases he : endOpening timing tO with
  | error e =>
    have hred : buildOpening timing tO = .error e := by
      unfold buildOpening
      rw [he]
    have hnle : ¬ timing.frequency ≤ timing.opening := by
      intro hle
      have h2 := (endOpening_isOk timing tO).mpr hle
      rw [he] at h2
      simp [exIsOk] at h2
    rw [hred]
    constructor
    · intro h; simp [exIsOk] at h
    · intro h; exact absurd h.1 hnle
  | ok e =>
    have he2 : timing.frequency ≤ timing.opening :=
      (endOpening_isOk timing tO).mp (by rw [he]; rfl)
    have hgt : tO < e := by
      unfold endOpening at he
      by_cases h1 : timing.frequency = timing.opening
      · rw [if_pos h1] at he
        have h3 := Except.ok.inj he
        omega
      · rw [if_neg h1] at he
        by_cases h2 : timing.frequency < timing.opening
        · rw [if_pos h2] at he
          have h3 := Except.ok.inj he
          rcases hblk with hb | hb
          · exact absurd hb h1
          · omega
        · rw [if_neg h2] at he
          simp at he
    have hmem : tO ∈ intRange tO e timing.frequency :=
      intRange_mem_start tO e timing.frequency hfr hgt
    cases hm : exMapM (fun tF => buildBlock timing tO tF)
        (intRange tO e timing.frequency) with
    | error e2 =>
      have hred0 : buildOpening timing tO
          = (match exMapM (fun tF => buildBlock timing tO tF)
              (intRange tO e timing.frequency) with
            | Except.error e3 => (Except.error e3 : Except String (List TTRow))
            | Except.ok blocks => Except.ok blocks.flatten) := by
        unfold buildOpening
        rw [he]
      rw [hm] at hred0
      have hred : buildOpening timing tO = .error e2 := by rw [hred0]
      have hinv : ¬(timing.settling = "continuous" ∨ timing.settling = "periodic") := by
        intro hv
        have hall : ∀ tF ∈ intRange tO e timing.frequency,
            exIsOk (buildBlock timing tO tF) = true :=
          fun tF _ => (buildBlock_isOk timing tO tF).mpr hv
        have h2 := (exMapM_isOk _ _).mpr hall
        rw [hm] at h2
        simp [exIsOk] at h2
      rw [hred]
      constructor
      · intro h; simp [exIsOk] at h
      · intro h; exact absurd h.2 hinv
    | ok blocks =>
      have hred0 : buildOpening timing tO
          = (match exMapM (fun tF => buildBlock timing tO tF)
              (intRange tO e timing.frequency) with
            | Except.error e3 => (Except.error e3 : Except String (List TTRow))
            | Except.ok blocks2 => Except.ok blocks2.flatten) := by
        unfold buildOpening
        rw [he]
      rw [hm] at hred0
      have hred : buildOpening timing tO = .ok blocks.flatten := by rw [hred0]
      have hv := (buildBlock_isOk timing tO tO).mp
        ((exMapM_isOk _ _).mp (by rw [hm]; rfl) tO hmem)
      rw [hred]
      simp [exIsOk, he2, hv]

theorem create_timetable_ex_ante_isOk (simStart simEnd : Int) (timing : TimingCfg)
    (hop : 0 < timing.opening) (hfr : 0 < timing.frequency)
    (hsim : simStart + timing.start < simEnd)
    (hblk : timing.frequency = timing.opening ∨ 0 < timing.horizon1) :
    exIsOk (create_timetable_ex_ante simStart simEnd timing) = true ↔
      (timing.frequency ≤ timing.opening ∧
        (timing.settling = "continuous" ∨ timing.settling = "periodic")) := by
  cases hm : exMapM (buildOpening timing)
      (intRange (simStart + timing.start) simEnd timing.opening) with
  | error e =>
    have hred : create_timetable_ex_ante simStart simEnd timing = .error e := by
      unfold create_timetable_ex_ante
      rw [hm]
    rw [hred]
    constructor
    · intro h; simp [exIsOk] at h
    · rintro ⟨hle, hval⟩
      have hall : ∀ tO ∈ intRange (simStart + timing.start) simEnd timing.opening,
          exIsOk (buildOpening timing tO) = true :=
        fun tO _ => (buildOpening_isOk timing tO hfr hop hblk).mpr ⟨hle, hval⟩
      have h2 := (exMapM_isOk _ _).mpr hall
      rw [hm] at h2
      simp [exIsOk] at h2
  | ok tts =>
    have hred : create_timetable_ex_ante simStart simEnd timing
        = .ok (sortTimetable tts.flatten) := by
      unfold create_timetable_ex_ante
      rw [hm]
    rw [hred]
    have hmem : (simStart + timing.start)
        ∈ intRange (simStart + timing.start) simEnd timing.opening :=
      intRange_mem_start _ _ _ hop hsim
    have hok1 := (exMapM_isOk _ _).mp (by rw [hm]; rfl) _ hmem
    have h3 := (buildOpening_isOk timing _ hfr hop hblk).mp hok1
    simp [exIsOk, h3]

theorem create_timetable_isOk (ctype : String) (simStart simEnd : Int)
    (timing : TimingCfg)
    (hop : 0 < timing.opening) (hfr : 0 < timing.frequency)
    (hsim : simStart + timing.start < simEnd)
    (hblk : timing.frequency = timing.opening ∨ 0 < timing.horizon1) :
    exIsOk (create_timetable ctype simStart simEnd timing) = true ↔
      (ctype = "ex-ante" ∧ timing.frequency ≤ timing.opening ∧
        (timing.settling = "continuous" ∨ timing.settling = "periodic")) := by
  unfold create_timetable
  by_cases hc : ctype = "ex-ante"
  · rw [if_pos hc, create_timetable_ex_ante_isOk simStart simEnd timing hop hfr hsim hblk]
    simp [hc]
  · rw [if_neg hc]
    simp [exIsOk, hc]

/-- C9.  For a simulation window containing at least one opening and
positive timing steps, building a market (timetable plus retailer tables)
succeeds exactly when the clearing type is the registered `ex-ante`, the
frequency does not exceed the opening, the settling is `continuous` or
`periodic`, and every pricing component method is `fixed` or `file`; any of
these defects makes the build raise. -/
theorem c9_build_validation (simStart simEnd : Int) (cfg : MarketConfig)
    (hop : 0 < cfg.timing.opening) (hfr : 0 < cfg.timing.frequency)
    (hsim : simStart + cfg.timing.start < simEnd)
    (hblk : cfg.timing.frequency = cfg.timing.opening ∨ 0 < cfg.timing.horizon1)
    (hpr : cfg.pricing ≠ []) :
    exIsOk (buildMarket simStart simEnd cfg) = true ↔
      (cfg.ctype = "ex-ante" ∧ cfg.timing.frequency ≤ cfg.timing.opening ∧
        (cfg.timing.settling = "continuous" ∨ cfg.timing.settling = "periodic") ∧
        ∀ kv ∈ cfg.pricing, ∀ comp ∈ kv.2,
          comp.2.method = "fixed" ∨ comp.2.method = "file") := by
  cases htt : create_timetable cfg.ctype simStart simEnd cfg.timing with
  | error e =>
    have hred : buildMarket simStart simEnd cfg = .error e := by
      unfold buildMarket
      rw [htt]
    rw [hred]
    have htt2 : ¬(cfg.ctype = "ex-ante" ∧ cfg.timing.frequency ≤ cfg.timing.opening ∧
        (cfg.timing.settling = "continuous" ∨ cfg.timing.settling = "periodic")) := by
      intro hv
      have h2 := (create_timetable_isOk cfg.ctype simStart simEnd cfg.timing
        hop hfr hsim hblk).mpr hv
      rw [htt] at h2
      simp [exIsOk] at h2
    constructor
    · intro h; simp [exIsOk] at h
    · rintro ⟨h1, h2, h3, _⟩; exact absurd ⟨h1, h2, h3⟩ htt2
  | ok tt =>
    have htt3 := (create_timetable_isOk cfg.ctype simStart simEnd cfg.timing
      hop hfr hsim hblk).mp (by rw [htt]; rfl)
    cases hrt : create_retailers_from_config tt cfg.pricing with
    | error e =>
      have hred : buildMarket simStart simEnd cfg
          = (match create_retailers_from_config tt cfg.pricing with
              | .error e2 => (Except.error e2 : Except String (List TTRow × RetailerTable))
              | .ok rt => .ok (tt, rt)) := by
        unfold buildMarket
        rw [htt]
      rw [hrt] at hred
      have hred2 : buildMarket simStart simEnd cfg = .error e := by rw [hred]
      rw [hred2]
      have hrt2 : ¬ ∀ kv ∈ cfg.pricing, ∀ comp ∈ kv.2,
          comp.2.method = "fixed" ∨ comp.2.method = "file" := by
        intro hv
        have h2 := (create_retailers_from_config_isOk tt cfg.pricing hpr).mpr hv
        rw [hrt] at h2
        simp [exIsOk] at h2
      constructor
      · intro h; simp [exIsOk] at h
      · rintro ⟨_, _, _, h4⟩; exact absurd h4 hrt2
    | ok rt =>
      have hred : buildMarket simStart simEnd cfg
          = (match create_retailers_from_config tt cfg.pricing with
              | .error e2 => (Except.error e2 : Except String (List TTRow × RetailerTable))
              | .ok rt2 => .ok (tt, rt2)) := by
        unfold buildMarket
        rw [htt]
      rw [hrt] at hred
      have hred2 : buildMarket simStart simEnd cfg = .ok (tt, rt) := by rw [hred]
      rw [hred2]
      have hrt3 := (create_retailers_from_config_isOk tt cfg.pricing hpr).mp
        (by rw [hrt]; rfl)
      constructor
      · intro _; exact ⟨htt3.1, htt3.2.1, htt3.2.2, hrt3⟩
      · intro _; rfl

/-- A market configuration with the C5 timing, one retailer with fixed
energy prices. -/
def c9cfg : MarketConfig :=
  { ctype := "ex-ante"
    timing := c5timing
    pricing :=
      [ ("retailer",
          [("energy", { method := "fixed", fixed := [("price", .pair 10 5)], file := [] })]) ] }

/-- C9 witness: the validation equivalence instantiated at `c9cfg` over one
day of simulated time. -/
theorem c9_build_validation_witness :
    exIsOk (buildMarket 0 86400 c9cfg) = true ↔
      (c9cfg.ctype = "ex-ante" ∧ c9cfg.timing.frequency ≤ c9cfg.timing.opening ∧
        (c9cfg.timing.settling = "continuous" ∨ c9cfg.timing.settling = "periodic") ∧
        ∀ kv ∈ c9cfg.pricing, ∀ comp ∈ kv.2,
          comp.2.method = "fixed" ∨ comp.2.method = "file") :=
  c9_build_validation 0 86400 c9cfg (by decide) (by decide) (by decide)
    (Or.inr (by decide)) (by decide)

end Hamlet
